import Mathlib

/-!
Shallow embedding of the Kia technical-manual downloader
(src/main.py and src/downloader.py).

Strings are modelled as Lean `String` (a list of characters); most string
processing is defined on `List Char` and wrapped.  The filesystem is a map
from paths to file contents (lists of byte values).  HTTP traffic is an
oracle: each modelled call consumes a response value describing what the
network returned (or that the request raised), and streamed bodies are lists
of events (a chunk arriving, a read error, a write error).

External library routines used by the source (urllib.parse.unquote,
os.path.basename, os.path.splitext, os.path.join, str.lower, str.strip)
are modelled faithfully for the ASCII inputs the program manipulates;
percent-escapes decode to the raw byte as a single character, a single-byte
approximation of the UTF-8 decode performed by urllib, immaterial to the
properties proved here.
-/

namespace KiaSpec

/-- The single-quote character, written numerically. -/
def squote : Char := Char.ofNat 39

/-- Characters matched by the character class of lowercase letters and
digits used in the sanitizer regexes of src/main.py. -/
def isLowerAlnum (c : Char) : Bool :=
  (97 ≤ c.toNat && c.toNat ≤ 122) || (48 ≤ c.toNat && c.toNat ≤ 57)

/-- ASCII model of Python str.lower applied characterwise. -/
def pyLower (c : Char) : Char :=
  if 65 ≤ c.toNat && c.toNat ≤ 90 then Char.ofNat (c.toNat + 32) else c

/-- ASCII hexadecimal digit test, as accepted by urllib percent-escapes. -/
def isHexDigitCh (c : Char) : Bool :=
  (48 ≤ c.toNat && c.toNat ≤ 57) || (97 ≤ c.toNat && c.toNat ≤ 102) ||
    (65 ≤ c.toNat && c.toNat ≤ 70)

/-- Value of an ASCII hexadecimal digit. -/
def hexDigitVal (c : Char) : Nat :=
  if 48 ≤ c.toNat && c.toNat ≤ 57 then c.toNat - 48
  else if 97 ≤ c.toNat && c.toNat ≤ 102 then c.toNat - 87
  else c.toNat - 55

/-- Model of urllib.parse.unquote: a percent sign followed by two hex digits
decodes to the corresponding byte; malformed escapes are kept literally. -/
def unquoteL : List Char → List Char
  | [] => []
  | '%' :: a :: b :: t2 =>
    if isHexDigitCh a && isHexDigitCh b then
      Char.ofNat (16 * hexDigitVal a + hexDigitVal b) :: unquoteL t2
    else '%' :: unquoteL (a :: b :: t2)
  | c :: t => c :: unquoteL t

/-- Last component of a slash-separated path: url_path.split("/")[-1]. -/
def lastSegmentL (l : List Char) : List Char :=
  (l.reverse.takeWhile (fun c => c ≠ '/')).reverse

/-- Model of os.path.basename for POSIX paths (identical to lastSegmentL). -/
def pyBasenameL (l : List Char) : List Char :=
  (l.reverse.takeWhile (fun c => c ≠ '/')).reverse

/-- The character map step of the primary-mode sanitizer: every character
outside lowercase alphanumerics becomes an underscore.  Together with
collapseUnderscoresL this realizes the regex replacing each maximal run of
such characters by a single underscore. -/
def mapInvalidL (l : List Char) : List Char :=
  l.map (fun c => if isLowerAlnum c then c else '_')

/-- Collapse each run of consecutive underscores to a single underscore. -/
def collapseUnderscoresL : List Char → List Char
  | [] => []
  | [c] => [c]
  | a :: b :: t =>
    if a = '_' && b = '_' then collapseUnderscoresL (b :: t)
    else a :: collapseUnderscoresL (b :: t)

/-- Drop the trailing run of characters satisfying p. -/
def dropTrailingWhile (p : Char → Bool) : List Char → List Char
  | [] => []
  | c :: t =>
    match dropTrailingWhile p t with
    | [] => if p c then [] else [c]
    | r => c :: r

/-- Drop the leading and trailing runs of characters satisfying p
(model of str.strip with a fixed character set, and of the regex deleting
leading and trailing runs). -/
def stripWhile (p : Char → Bool) (l : List Char) : List Char :=
  dropTrailingWhile p (l.dropWhile p)

/-- Remove a trailing ".pdf" if present: filename[:-4] guarded by endswith. -/
def stripPdfSuffixL (l : List Char) : List Char :=
  if (".pdf".data).isSuffixOf l then l.take (l.length - 4) else l

/-- The stem computed by sanitize_primary_mode_filename before the final
".pdf" is appended. -/
def sanitizeStemL (l : List Char) : List Char :=
  stripWhile (fun c => c = '_')
    (collapseUnderscoresL
      (mapInvalidL
        (stripPdfSuffixL
          ((unquoteL (lastSegmentL l)).map pyLower))))

/-- src/main.py sanitize_primary_mode_filename: take the last URL path
segment, percent-decode, lowercase, strip an existing ".pdf", replace each
maximal run of characters outside lowercase alphanumerics by one
underscore, trim leading and trailing underscores, append ".pdf". -/
def sanitize_primary_mode_filename (url_path : String) : String :=
  String.mk (sanitizeStemL url_path.data ++ (".pdf".data))

/-- Characters kept unchanged by the KGIS-mode sanitizer regex
(lowercase alphanumerics and the dot). -/
def isKgisKeep (c : Char) : Bool := isLowerAlnum c || c = '.'

/-- Remove every occurrence of the four-character pattern p1 p2 p3 p4,
scanning left to right without overlap: model of str.replace(pat, "")
for a four-character pattern. -/
def removeNoise (p1 p2 p3 p4 : Char) : List Char → List Char
  | a :: b :: c :: d :: t =>
    if a = p1 && b = p2 && c = p3 && d = p4 then removeNoise p1 p2 p3 p4 t
    else a :: removeNoise p1 p2 p3 p4 (b :: c :: d :: t)
  | l => l

/-- Extension of a path, as returned by os.path.splitext(p)[1] for POSIX:
the suffix from the last dot, provided the dot lies after the last slash
and some character other than a dot stands between them. -/
def splitextExtL (l : List Char) : List Char :=
  let b := pyBasenameL l
  let afterDot := (b.reverse.takeWhile (fun c => c ≠ '.')).reverse
  if afterDot.length = b.length then []
  else
    let pre := b.take (b.length - afterDot.length - 1)
    if pre.any (fun c => c ≠ '.') then '.' :: afterDot else []

/-- The part of the URL the KGIS sanitizer works on: lowercase the URL,
drop the query string, take the basename. -/
def kgisFilenamePart (raw : List Char) : List Char :=
  pyBasenameL ((raw.map pyLower).takeWhile (fun c => c ≠ '?'))

/-- The sanitized name before the possible extension re-append: replace
each character outside lowercase alphanumerics and dot by an underscore,
collapse runs of underscores, strip leading and trailing underscores, and
remove every occurrence of the noise substrings, in source order. -/
def kgisSafeName (raw : List Char) : List Char :=
  removeNoise '_' 't' 'x' 't'
    (removeNoise '_' 'z' 'i' 'p'
      (removeNoise '_' 'p' 'd' 'f'
        (stripWhile (fun c => c = '_')
          (collapseUnderscoresL
            ((kgisFilenamePart raw).map
              (fun c => if isKgisKeep c then c else '_'))))))

/-- src/main.py create_kgis_safe_filename: sanitize the URL basename and
re-append the original extension when the sanitized name has none. -/
def create_kgis_safe_filename (raw_url : String) : String :=
  let original_extension := splitextExtL (kgisFilenamePart raw_url.data)
  let safe_name := kgisSafeName raw_url.data
  if splitextExtL safe_name = [] then String.mk (safe_name ++ original_extension)
  else String.mk safe_name

/-- src/downloader.py url_to_filename: its body is statement-for-statement
the pipeline of create_kgis_safe_filename. -/
def url_to_filename (raw_url : String) : String :=
  create_kgis_safe_filename raw_url

/-- Model of os.path.join for two POSIX components. -/
def pyJoin (dir name : String) : String :=
  if name.data.head? = some '/' then name
  else if dir = "" then name
  else if dir.data.getLast? = some '/' then dir ++ name
  else dir ++ "/" ++ name

/-! ## Filesystem and HTTP model -/

/-- A filesystem: paths map to the bytes of an existing file, or nothing. -/
abbrev FS := String → Option (List Nat)

/-- Write (create or overwrite) a file. -/
def FS.write (fs : FS) (p : String) (v : List Nat) : FS :=
  fun q => if q = p then some v else fs q

/-- Remove a file. -/
def FS.erase (fs : FS) (p : String) : FS :=
  fun q => if q = p then none else fs q

/-- The filesystem with no files. -/
def emptyFS : FS := fun _ => none

/-- src/main.py check_file_exists (os.path.isfile). -/
def check_file_exists (fs : FS) (file_path : String) : Bool :=
  (fs file_path).isSome

/-- src/downloader.py file_exists (os.path.isfile). -/
def file_exists (fs : FS) (filename : String) : Bool :=
  (fs filename).isSome

/-- One event of a streamed response body: a chunk of bytes arrives and is
written, or iterating the content raises, or writing the chunk raises. -/
inductive StreamEvent where
  | chunk (data : List Nat)
  | readErr
  | writeErr
deriving DecidableEq

/-- Outcome of a download GET: the request raised, or a status code,
Content-Type header and streamed body were received. -/
inductive HttpResp where
  | reqErr
  | resp (status : Nat) (contentType : String) (events : List StreamEvent)
deriving DecidableEq

/-- The specification-level outcome of one download call. -/
inductive Outcome where
  | skipped
  | downloaded (bytes : Nat)
  | failed
deriving DecidableEq

/-- The boolean actually returned by both Python download functions:
True exactly on the Downloaded outcome. -/
def pyReturnBool : Outcome → Bool
  | .downloaded _ => true
  | _ => false

/-- Result of a modelled download call: the filesystem afterwards, the
outcome, and the URLs for which a network GET was issued. -/
structure DLResult where
  fs : FS
  outcome : Outcome
  net : List String

/-- Run the chunk-writing loop at path p: empty chunks are skipped (the
`if chunk` guard), nonempty chunks are appended to the file, and an error
event aborts the loop leaving the bytes written so far on disk.  Returns
the final filesystem and, when no exception occurred, the written bytes. -/
def runStream (p : String) (fs : FS) (written : List Nat) :
    List StreamEvent → FS × Option (List Nat)
  | [] => (fs, some written)
  | .chunk d :: rest =>
    if d = [] then runStream p fs written rest
    else runStream p (FS.write fs p (written ++ d)) (written ++ d) rest
  | .readErr :: _ => (fs, none)
  | .writeErr :: _ => (fs, none)

/-- src/main.py download_file_to_disk.  Skip without network traffic when
the destination exists; raise_for_status failures and request errors give
Failed with nothing written; a completed zero-byte stream deletes the
just-created file; an exception while streaming is caught, logged and
returns Failed WITHOUT deleting the partial file. -/
def download_file_to_disk (fs : FS) (file_url full_file_path : String)
    (resp : HttpResp) : DLResult :=
  if check_file_exists fs full_file_path then ⟨fs, .skipped, []⟩
  else
    match resp with
    | .reqErr => ⟨fs, .failed, [file_url]⟩
    | .resp status _ events =>
      if 400 ≤ status ∧ status < 600 then ⟨fs, .failed, [file_url]⟩
      else
        match runStream full_file_path (FS.write fs full_file_path []) [] events with
        | (fs2, none) => ⟨fs2, .failed, [file_url]⟩
        | (fs2, some w) =>
          if w.length = 0 then ⟨FS.erase fs2 full_file_path, .failed, [file_url]⟩
          else ⟨fs2, .downloaded w.length, [file_url]⟩

/-- Substring test on character lists: pat occurs somewhere in the list.
Model of the Python `in` operator on strings. -/
def containsSubL (pat : List Char) : List Char → Bool
  | [] => pat.isPrefixOf []
  | c :: t => pat.isPrefixOf (c :: t) || containsSubL pat t

/-- Content-Type allow-list of src/downloader.py download_pdf. -/
def contentTypeOk (ct : String) : Bool :=
  containsSubL (("binary/octet-stream").data) (ct.data.map pyLower) ||
    containsSubL (("application/pdf").data) (ct.data.map pyLower)

/-- Destination path computed inside download_pdf. -/
def downloadPdfPath (pdf_url output_directory : String) : String :=
  pyJoin output_directory (url_to_filename pdf_url)

/-- src/downloader.py download_pdf.  Skip when the destination exists;
request errors, non-200 status and disallowed Content-Type give Failed with
nothing written; a completed zero-byte stream deletes the file; any
exception while writing deletes the partial file if it exists. -/
def download_pdf (pdf_url output_directory : String) (fs : FS)
    (resp : HttpResp) : DLResult :=
  let full_file_path := downloadPdfPath pdf_url output_directory
  if file_exists fs full_file_path then ⟨fs, .skipped, []⟩
  else
    match resp with
    | .reqErr => ⟨fs, .failed, [pdf_url]⟩
    | .resp status ct events =>
      if status ≠ 200 then ⟨fs, .failed, [pdf_url]⟩
      else if ¬ contentTypeOk ct then ⟨fs, .failed, [pdf_url]⟩
      else
        match runStream full_file_path (FS.write fs full_file_path []) [] events with
        | (fs2, none) =>
          if check_file_exists fs2 full_file_path then
            ⟨FS.erase fs2 full_file_path, .failed, [pdf_url]⟩
          else ⟨fs2, .failed, [pdf_url]⟩
        | (fs2, some w) =>
          if w.length = 0 then ⟨FS.erase fs2 full_file_path, .failed, [pdf_url]⟩
          else ⟨fs2, .downloaded w.length, [pdf_url]⟩

/-! ## URL resolution and link extraction -/

/-- Result of an HTTP exchange whose body is consumed as text. -/
inductive TextResp where
  | reqErr
  | ok (status : Nat) (body : String)
deriving DecidableEq

/-- Base domain of the technical document vault (src/main.py constant). -/
def TECH_INFO_BASE_DOMAIN : String := "https://www.kiatechinfo.com"

/-- Base URL for constructing full PDF links in KGIS mode. -/
def KGIS_DOWNLOAD_BASE_URL : String := "https://kiatechinfo.snapon.com"

/-- Top-level download folder (src/main.py constant). -/
def ROOT_DOWNLOAD_DIRECTORY : String := "PDFs"

/-- KGIS static page list (src/main.py constant). -/
def KGIS_STATIC_PAGE_URLS : List String :=
  [("https://kiatechinfo.snapon.com/KiaEmergencyResponseGuide.aspx"),
   ("https://kiatechinfo.snapon.com/J2534DiagnosticsAndProgramming.aspx"),
   ("https://kiatechinfo.snapon.com/KiaPositioningStatements.aspx"),
   ("https://kiatechinfo.snapon.com/SeatBeltInstallationGuide.aspx")]

/-- The literal text preceding the captured group in the iframe regex. -/
def iframePat : List Char := ("<iframe src=").data ++ ['"']

/-- Attempt the iframe regex at the head of the list: the literal pattern,
then a nonempty run of non-quote characters ending in ".pdf", then a
closing double quote.  Returns the captured group. -/
def tryIframeAt (l : List Char) : Option (List Char) :=
  if iframePat.isPrefixOf l then
    let after := l.drop iframePat.length
    let span := after.takeWhile (fun c => c ≠ '"')
    if span.length < after.length ∧ (".pdf".data).isSuffixOf span ∧ 5 ≤ span.length
    then some span else none
  else none

/-- Leftmost match of the iframe regex over the whole text (re.search). -/
def findIframeSrc : List Char → Option (List Char)
  | [] => none
  | c :: t =>
    match tryIframeAt (c :: t) with
    | some s => some s
    | none => findIframeSrc t

/-- src/main.py resolve_pdf_url_from_token: POST the token, and on a 2xx
response extract the first iframe src ending in ".pdf" and prefix the base
domain; a request error, an HTTP error status or a failed extraction all
yield the empty string (logged, not raised). -/
def resolve_pdf_url_from_token : TextResp → String
  | .reqErr => ""
  | .ok status body =>
    if 400 ≤ status ∧ status < 600 then ("")
    else
      match findIframeSrc body.data with
      | some relative_pdf_path => TECH_INFO_BASE_DOMAIN ++ String.mk relative_pdf_path
      | none => ""

/-- Does a candidate span between single quotes match the static-page
regex: starts with "/FileServerRoot", then at least one character, then
".pdf" (lowercase, case-sensitive)? -/
def goodSpan (s : List Char) : Bool :=
  (("/FileServerRoot").data).isPrefixOf s && ((".pdf").data).isSuffixOf s &&
    decide (20 ≤ s.length)

/-- Scanner realizing re.findall of the quoted-path regex.  The second
argument is none while looking for an opening single quote, and some acc
(reversed span so far) while inside a quoted span; on a closing quote a
good span is emitted and scanning resumes after it, while a bad span lets
the closing quote start a new candidate span, exactly as the regex engine
advancing through positions would. -/
def pdfScanGo : List Char → Option (List Char) → List (List Char)
  | [], _ => []
  | c :: t, none => if c = squote then pdfScanGo t (some []) else pdfScanGo t none
  | c :: t, some acc =>
    if c = squote then
      if goodSpan acc.reverse then acc.reverse :: pdfScanGo t none
      else pdfScanGo t (some [])
    else pdfScanGo t (some (c :: acc))

/-- src/main.py extract_static_pdf_paths: all capture groups of the
single-quote-delimited /FileServerRoot...pdf regex, in order. -/
def extract_static_pdf_paths (html_content : String) : List String :=
  (pdfScanGo html_content.data none).map String.mk

/-- src/downloader.py extract_pdf_files: the identical regex findall. -/
def extract_pdf_files (html_content : String) : List String :=
  extract_static_pdf_paths html_content

/-! ## Primary-mode orchestration (src/main.py) -/

/-- One catalog entry as extracted from the /cmm/gvmh JSON response; the
fields may be absent. -/
structure CarModel where
  modelYear : Option Nat
  modelName : Option String
deriving DecidableEq

/-- Result of the catalog POST: a request or HTTP-status error, a JSON
decode error, or a parsed body whose payload.vehicleModelHU field may be
missing (none covers both a missing payload and a missing field). -/
inductive CatalogResp where
  | reqErr
  | jsonErr
  | payload (vehicleModelHU : Option (List CarModel))
deriving DecidableEq

/-- src/main.py fetch_all_model_years: request errors and JSON decode
errors are logged and yield the empty list; otherwise the (possibly
missing, defaulted-to-empty) model list is returned. -/
def fetch_all_model_years : CatalogResp → List CarModel
  | .reqErr => []
  | .jsonErr => []
  | .payload none => []
  | .payload (some vehicle_models) => vehicle_models

/-- Result of the per-model token POST: payload.automatedManuals is a list
of records whose accessPayload field may be absent. -/
inductive TokenResp where
  | reqErr
  | payload (automatedManuals : Option (List (Option String)))
deriving DecidableEq

/-- src/main.py fetch_manual_access_tokens: request errors yield the empty
list; otherwise the truthy accessPayload values of the records. -/
def fetch_manual_access_tokens : TokenResp → List String
  | .reqErr => []
  | .payload none => []
  | .payload (some manual_records) =>
    manual_records.filterMap (fun record =>
      match record with
      | some s => if s = "" then none else some s
      | none => none)

/-- Result of the session-refresh GET to the base domain. -/
inductive RefreshResp where
  | reqErr
  | ok (status : Nat)
deriving DecidableEq

/-- src/main.py establish_technical_session_cookies: a GET whose request
errors and HTTP-status errors are logged and swallowed; in every case the
function returns nothing and the pipeline proceeds. -/
def establish_technical_session_cookies : RefreshResp → Unit
  | .reqErr => ()
  | .ok _ => ()

/-- Model of str.strip() whitespace for the ASCII whitespace characters. -/
def isPySpace (c : Char) : Bool :=
  c = ' ' || c.toNat = 9 || c.toNat = 10 || c.toNat = 13 || c.toNat = 11 ||
    c.toNat = 12

/-- Characters kept by the model-name cleanup regex [^a-zA-Z0-9\s-]. -/
def isModelKeep (c : Char) : Bool :=
  (97 ≤ c.toNat && c.toNat ≤ 122) || (65 ≤ c.toNat && c.toNat ≤ 90) ||
    (48 ≤ c.toNat && c.toNat ≤ 57) || isPySpace c || c = '-'

/-- Directory-safe model name: drop characters outside the kept class,
strip surrounding whitespace, replace spaces with underscores. -/
def safeModelName (model_name : String) : String :=
  String.mk ((stripWhile isPySpace (model_name.data.filter isModelKeep)).map
    (fun c => if c = ' ' then '_' else c))

/-- Two-digit zero-padded index prefix (Python format 02d). -/
def formatIndex2 (n : Nat) : String :=
  if n < 10 then ("0") ++ toString n else toString n

/-- Destination path of one primary-mode download:
PDFs/{year}/{safe model name}/{index+1:02d}_{sanitized filename}. -/
def buildPrimaryPath (model_year : Nat) (model_name : String) (index : Nat)
    (url : String) : String :=
  pyJoin (pyJoin (pyJoin ROOT_DOWNLOAD_DIRECTORY (toString model_year))
      (safeModelName model_name))
    (formatIndex2 (index + 1) ++ "_" ++ sanitize_primary_mode_filename url)

/-- Network oracle for one primary-mode run: what each modelled HTTP call
would return. -/
structure Env where
  catalogResp : CatalogResp
  tokenResp : Nat → String → TokenResp
  refreshResp : String → RefreshResp
  exchangeResp : String → TextResp
  downloadResp : String → HttpResp
  fs0 : FS

/-- Observable steps of a run, in order. -/
inductive Event where
  | tokenFetch (modelYear : Nat) (modelName : String)
  | refresh
  | resolveExchange (token : String)
  | downloadCall (url : String) (path : String)
  | scrapeGet (url : String)
deriving DecidableEq

/-- The per-token loop of execute_model_specific_download: refresh the
session, exchange the token, and when a URL was extracted run the
download (whose boolean result the source discards). -/
def processTokens (env : Env) (model_year : Nat) (model_name : String) :
    List String → Nat → FS → FS × List Event
  | [], _, fs => (fs, [])
  | access_token :: rest, index, fs =>
    let _refreshed : Unit :=
      establish_technical_session_cookies (env.refreshResp access_token)
    let pdf_download_url := resolve_pdf_url_from_token (env.exchangeResp access_token)
    let step : FS × List Event :=
      if pdf_download_url = "" then (fs, [])
      else
        let full_file_path := buildPrimaryPath model_year model_name index pdf_download_url
        ((download_file_to_disk fs pdf_download_url full_file_path
            (env.downloadResp pdf_download_url)).fs,
          [Event.downloadCall pdf_download_url full_file_path])
    let tail := processTokens env model_year model_name rest (index + 1) step.1
    (tail.1, Event.refresh :: Event.resolveExchange access_token :: (step.2 ++ tail.2))

/-- The per-model loop of execute_model_specific_download: records with a
falsy year or name are skipped; otherwise the token endpoint is queried
and each token processed (an empty token list logs a warning and moves
on). -/
def processModels (env : Env) : List CarModel → FS → FS × List Event
  | [], fs => (fs, [])
  | car_model :: rest, fs =>
    match car_model.modelYear, car_model.modelName with
    | some y, some n =>
      if y = 0 || n = "" then processModels env rest fs
      else
        let toks := fetch_manual_access_tokens (env.tokenResp y n)
        let this := processTokens env y n toks 0 fs
        let tail := processModels env rest this.1
        (tail.1, Event.tokenFetch y n :: (this.2 ++ tail.2))
    | _, _ => processModels env rest fs

/-- Result of one whole run: final filesystem, ordered trace of observable
steps after the catalog fetch, and the process exit code. -/
structure RunResult where
  fs : FS
  trace : List Event
  exitCode : Nat

/-- src/main.py execute_model_specific_download: fetch the catalog; an
empty result is fatal (sys.exit(1), before any token-endpoint request);
otherwise every model is processed and the run ends normally. -/
def execute_model_specific_download (env : Env) : RunResult :=
  let car_models_list := fetch_all_model_years env.catalogResp
  if car_models_list = [] then ⟨env.fs0, [], 1⟩
  else
    let r := processModels env car_models_list env.fs0
    ⟨r.1, r.2, 0⟩

/-! ## KGIS-mode orchestration (src/main.py) -/

/-- Order-preserving removal of duplicates, keeping first occurrences
(dict.fromkeys). -/
def dedupGo (seen : List String) : List String → List String
  | [] => []
  | x :: t => if seen.contains x then dedupGo seen t else x :: dedupGo (x :: seen) t

/-- src/main.py remove_duplicate_items. -/
def remove_duplicate_items (input_list : List String) : List String :=
  dedupGo [] input_list

/-- Model of urllib.parse.urlparse based validity: a nonempty scheme before
"://" and a nonempty network location after it (src/main.py
is_url_format_valid). -/
def is_url_format_valid (url_string : String) : Bool :=
  let l := url_string.data
  let scheme := l.takeWhile (fun c => c ≠ ':')
  (decide (scheme ≠ []) && decide (scheme.length < l.length)) &&
    decide ((l.drop scheme.length).take 3 = [':', '/', '/']) &&
    decide ((l.drop (scheme.length + 3)).takeWhile (fun c => c ≠ '/') ≠ [])

/-- src/main.py scrape_static_page_html: GET the page; request errors and
HTTP error statuses are logged and yield the empty string. -/
def scrape_static_page_html : TextResp → String
  | .reqErr => ""
  | .ok status body => if 400 ≤ status ∧ status < 600 then ("") else body

/-- Network oracle for one KGIS-mode run. -/
structure KgisEnv where
  scrapeResp : String → TextResp
  downloadResp : String → HttpResp
  fs0 : FS

/-- The inner download loop of execute_kgis_static_download. -/
def kgisDownloadLoop (env : KgisEnv) : List String → FS → FS × List Event
  | [], fs => (fs, [])
  | pdf_relative_path :: rest, fs =>
    let full_pdf_url := KGIS_DOWNLOAD_BASE_URL ++ pdf_relative_path
    let safe_filename := create_kgis_safe_filename full_pdf_url
    let full_file_path :=
      pyJoin (pyJoin ROOT_DOWNLOAD_DIRECTORY ("KGIS_Static")) safe_filename
    let r := download_file_to_disk fs full_pdf_url full_file_path
      (env.downloadResp full_pdf_url)
    let tail := kgisDownloadLoop env rest r.fs
    (tail.1, Event.downloadCall full_pdf_url full_file_path :: tail.2)

/-- The per-page loop of execute_kgis_static_download: invalid URLs are
silently skipped, failed scrapes are logged and skipped, and every
extracted path is downloaded. -/
def kgisPages (env : KgisEnv) : List String → FS → FS × List Event
  | [], fs => (fs, [])
  | page_url :: rest, fs =>
    if is_url_format_valid page_url then
      let html_content := scrape_static_page_html (env.scrapeResp page_url)
      if html_content = "" then
        let tail := kgisPages env rest fs
        (tail.1, Event.scrapeGet page_url :: tail.2)
      else
        let dl := kgisDownloadLoop env (extract_static_pdf_paths html_content) fs
        let tail := kgisPages env rest dl.1
        (tail.1, Event.scrapeGet page_url :: (dl.2 ++ tail.2))
    else kgisPages env rest fs

/-- src/main.py execute_kgis_static_download: always completes with exit
code 0. -/
def execute_kgis_static_download (env : KgisEnv) : RunResult :=
  let r := kgisPages env (remove_duplicate_items KGIS_STATIC_PAGE_URLS) env.fs0
  ⟨r.1, r.2, 0⟩

/-- src/main.py main: the KGIS flag selects static mode, otherwise the
primary (model-specific) mode runs. -/
def main (kgisFlag : Bool) (env : Env) (kenv : KgisEnv) : RunResult :=
  if kgisFlag then execute_kgis_static_download kenv
  else execute_model_specific_download env

/-! ## Helper lemmas: filesystem and stream -/

theorem FS.write_self (fs : FS) (p : String) (v : List Nat) :
    FS.write fs p v p = some v := by
  simp [FS.write]

theorem FS.erase_self (fs : FS) (p : String) : FS.erase fs p p = none := by
  simp [FS.erase]

/-- A stream event that is a data chunk (neither kind of exception). -/
def isChunkEv : StreamEvent → Bool
  | .chunk _ => true
  | _ => false

/-- A response whose streamed body raises no exception. -/
def respErrFree : HttpResp → Bool
  | .reqErr => true
  | .resp _ _ events => events.all isChunkEv

theorem runStream_completed_file (p : String) (w : List Nat) :
    ∀ (events : List StreamEvent) (fs : FS) (written : List Nat),
      fs p = some written →
      (runStream p fs written events).2 = some w →
      (runStream p fs written events).1 p = some w := by
  intro events
  induction events with
  | nil =>
    intro fs written hfs h2
    simp only [runStream] at h2 ⊢
    exact h2 ▸ hfs
  | cons e rest ih =>
    intro fs written hfs h2
    cases e with
    | chunk d =>
      by_cases hd : d = []
      · simp only [runStream, hd, if_pos rfl] at h2 ⊢
        exact ih fs written hfs h2
      · simp only [runStream, if_neg hd] at h2 ⊢
        exact ih _ _ (FS.write_self fs p (written ++ d)) h2
    | readErr => simp [runStream] at h2
    | writeErr => simp [runStream] at h2

theorem runStream_errFree_isSome (p : String) :
    ∀ (events : List StreamEvent) (fs : FS) (written : List Nat),
      events.all isChunkEv = true →
      ((runStream p fs written events).2).isSome = true := by
  intro events
  induction events with
  | nil => intro fs written _; simp [runStream]
  | cons e rest ih =>
    intro fs written hall
    simp only [List.all_cons, Bool.and_eq_true] at hall
    cases e with
    | chunk d =>
      by_cases hd : d = []
      · simp only [runStream, hd, if_pos rfl]
        exact ih fs written hall.2
      · simp only [runStream, if_neg hd]
        exact ih _ _ hall.2
    | readErr => simp [isChunkEv] at hall
    | writeErr => simp [isChunkEv] at hall

theorem runStream_empty_chunks (p : String) :
    ∀ (events : List StreamEvent) (fs : FS) (written : List Nat),
      (∀ e ∈ events, e = StreamEvent.chunk []) →
      runStream p fs written events = (fs, some written) := by
  intro events
  induction events with
  | nil => intro fs written _; simp [runStream]
  | cons e rest ih =>
    intro fs written hall
    have he : e = StreamEvent.chunk [] := hall e (by simp)
    subst he
    simp only [runStream, if_pos rfl]
    exact ih fs written (fun e he => hall e (by simp [he]))

/-! ## Helper lemmas: download outcomes -/

theorem isSome_false_eq_none {α : Type} {o : Option α}
    (h : o.isSome = false) : o = none := by
  cases o with
  | none => rfl
  | some v => simp at h

theorem download_file_to_disk_skip (fs : FS) (u p : String) (r : HttpResp)
    (h : check_file_exists fs p = true) :
    download_file_to_disk fs u p r = ⟨fs, Outcome.skipped, []⟩ := by
  simp [download_file_to_disk, h]

theorem download_pdf_skip (u d : String) (fs : FS) (r : HttpResp)
    (h : file_exists fs (downloadPdfPath u d) = true) :
    download_pdf u d fs r = ⟨fs, Outcome.skipped, []⟩ := by
  simp [download_pdf, h]

theorem download_file_to_disk_downloaded (fs : FS) (u p : String)
    (r : HttpResp) (n : Nat)
    (h : (download_file_to_disk fs u p r).outcome = Outcome.downloaded n) :
    ∃ w : List Nat, n = w.length ∧ 0 < w.length ∧
      (download_file_to_disk fs u p r).fs p = some w := by
  unfold download_file_to_disk at h ⊢
  by_cases hex : check_file_exists fs p = true
  · simp [hex] at h
  · simp only [Bool.not_eq_true] at hex
    simp only [hex, Bool.false_eq_true, if_false] at h ⊢
    cases r with
    | reqErr => simp at h
    | resp status ct events =>
      by_cases hst : 400 ≤ status ∧ status < 600
      · simp [hst] at h
      · simp only [if_neg hst] at h ⊢
        rcases hrs : runStream p (FS.write fs p []) [] events with ⟨fs2, res⟩
        cases res with
        | none => simp [hrs] at h
        | some w =>
          simp only [hrs] at h ⊢
          by_cases hw : w.length = 0
          · simp [hw] at h
          · simp only [if_neg hw] at h ⊢
            refine ⟨w, by simpa using h.symm, Nat.pos_of_ne_zero hw, ?_⟩
            have := runStream_completed_file p w events (FS.write fs p []) []
              (FS.write_self fs p []) (by simp [hrs])
            simpa [hrs] using this

theorem download_pdf_downloaded (u d : String) (fs : FS) (r : HttpResp)
    (n : Nat)
    (h : (download_pdf u d fs r).outcome = Outcome.downloaded n) :
    ∃ w : List Nat, n = w.length ∧ 0 < w.length ∧
      (download_pdf u d fs r).fs (downloadPdfPath u d) = some w := by
  unfold download_pdf at h ⊢
  by_cases hex : file_exists fs (downloadPdfPath u d) = true
  · simp [hex] at h
  · simp only [Bool.not_eq_true] at hex
    simp only [hex, Bool.false_eq_true, if_false] at h ⊢
    cases r with
    | reqErr => simp at h
    | resp status ct events =>
      by_cases hst : status ≠ 200
      · simp [hst] at h
      · simp only [if_neg hst] at h ⊢
        by_cases hct : ¬ contentTypeOk ct = true
        · simp [hct] at h
        · simp only [if_neg hct] at h ⊢
          rcases hrs : runStream (downloadPdfPath u d)
              (FS.write fs (downloadPdfPath u d) []) [] events with ⟨fs2, res⟩
          cases res with
          | none =>
            simp only [hrs] at h
            by_cases hck : check_file_exists fs2 (downloadPdfPath u d) = true
            · simp [hck] at h
            · simp only [Bool.not_eq_true] at hck
              simp [hck] at h
          | some w =>
            simp only [hrs] at h ⊢
            by_cases hw : w.length = 0
            · simp [hw] at h
            · simp only [if_neg hw] at h ⊢
              refine ⟨w, by simpa using h.symm, Nat.pos_of_ne_zero hw, ?_⟩
              have := runStream_completed_file (downloadPdfPath u d) w events
                (FS.write fs (downloadPdfPath u d) [])
                [] (FS.write_self fs (downloadPdfPath u d) []) (by simp [hrs])
              simpa [hrs] using this

theorem download_pdf_failed_no_file (u d : String) (fs : FS) (r : HttpResp)
    (h : (download_pdf u d fs r).outcome = Outcome.failed) :
    (download_pdf u d fs r).fs (downloadPdfPath u d) = none := by
  unfold download_pdf at h ⊢
  by_cases hex : file_exists fs (downloadPdfPath u d) = true
  · simp [hex] at h
  · simp only [Bool.not_eq_true] at hex
    have hnone : fs (downloadPdfPath u d) = none :=
      isSome_false_eq_none (by simpa [file_exists] using hex)
    simp only [hex, Bool.false_eq_true, if_false] at h ⊢
    cases r with
    | reqErr => simpa using hnone
    | resp status ct events =>
      by_cases hst : status ≠ 200
      · simpa [hst] using hnone
      · simp only [if_neg hst] at h ⊢
        by_cases hct : ¬ contentTypeOk ct = true
        · simpa [hct] using hnone
        · simp only [if_neg hct] at h ⊢
          rcases hrs : runStream (downloadPdfPath u d)
              (FS.write fs (downloadPdfPath u d) []) [] events with ⟨fs2, res⟩
          cases res with
          | none =>
            simp only [hrs]
            by_cases hck : check_file_exists fs2 (downloadPdfPath u d) = true
            · simpa [hck] using FS.erase_self fs2 (downloadPdfPath u d)
            · simp only [Bool.not_eq_true] at hck
              simp only [hck, Bool.false_eq_true, if_false]
              exact isSome_false_eq_none (by simpa [check_file_exists] using hck)
          | some w =>
            simp only [hrs] at h ⊢
            by_cases hw : w.length = 0
            · simpa [hw] using FS.erase_self fs2 (downloadPdfPath u d)
            · rw [if_neg hw] at h
              simp at h

theorem download_file_to_disk_failed_no_file_of_errFree (fs : FS)
    (u p : String) (r : HttpResp)
    (h : (download_file_to_disk fs u p r).outcome = Outcome.failed)
    (hfree : respErrFree r = true) :
    (download_file_to_disk fs u p r).fs p = none := by
  unfold download_file_to_disk at h ⊢
  by_cases hex : check_file_exists fs p = true
  · simp [hex] at h
  · simp only [Bool.not_eq_true] at hex
    have hnone : fs p = none :=
      isSome_false_eq_none (by simpa [check_file_exists] using hex)
    simp only [hex, Bool.false_eq_true, if_false] at h ⊢
    cases r with
    | reqErr => simpa using hnone
    | resp status ct events =>
      by_cases hst : 400 ≤ status ∧ status < 600
      · simpa [hst] using hnone
      · simp only [if_neg hst] at h ⊢
        rcases hrs : runStream p (FS.write fs p []) [] events with ⟨fs2, res⟩
        cases res with
        | none =>
          have := runStream_errFree_isSome p events (FS.write fs p []) []
            (by simpa [respErrFree] using hfree)
          simp [hrs] at this
        | some w =>
          simp only [hrs] at h ⊢
          by_cases hw : w.length = 0
          · simpa [hw] using FS.erase_self fs2 p
          · rw [if_neg hw] at h
            simp at h

/-! ## Claim C1 -/

/-- C1 counterexample: a write exception in download_file_to_disk
(src/main.py) returns Failed yet leaves the partially written file on
disk, so a Failed download call CAN leave a file at the destination path:
with one 1-byte chunk written before the write error, the destination
still holds that byte after the call. -/
theorem download_file_to_disk_write_error_leaves_file :
  (download_file_to_disk emptyFS ("https://www.kiatechinfo.com/files/a.pdf")
      ("PDFs/2024/Rio/01_a.pdf")
      (HttpResp.resp 200 ("application/pdf")
        [StreamEvent.chunk [37], StreamEvent.writeErr])).outcome = Outcome.failed
  ∧ (download_file_to_disk emptyFS ("https://www.kiatechinfo.com/files/a.pdf")
      ("PDFs/2024/Rio/01_a.pdf")
      (HttpResp.resp 200 ("application/pdf")
        [StreamEvent.chunk [37], StreamEvent.writeErr])).fs
      ("PDFs/2024/Rio/01_a.pdf") = some [37] := by
  constructor <;> rfl

/-- C1 amended: download_pdf (src/downloader.py) never leaves a file at
the destination after returning Failed; download_file_to_disk
(src/main.py) guarantees this only when no exception interrupts the
streamed write — an exception during the write returns Failed while
leaving the partial file in place (see the counterexample). -/
theorem failed_download_cleanup :
  ∀ (pdf_url output_directory file_url full_file_path : String) (fs : FS)
    (r r2 : HttpResp),
    ((download_pdf pdf_url output_directory fs r).outcome = Outcome.failed →
      (download_pdf pdf_url output_directory fs r).fs
        (downloadPdfPath pdf_url output_directory) = none)
    ∧ ((download_file_to_disk fs file_url full_file_path r2).outcome = Outcome.failed →
        respErrFree r2 = true →
        (download_file_to_disk fs file_url full_file_path r2).fs full_file_path = none) := by
  intro pdf_url output_directory file_url full_file_path fs r r2
  exact ⟨download_pdf_failed_no_file pdf_url output_directory fs r,
    fun h hfree =>
      download_file_to_disk_failed_no_file_of_errFree fs file_url full_file_path r2 h hfree⟩

/-- C1 witness: both cleanup guarantees evaluated at concrete inputs. -/
theorem failed_download_cleanup_witness :
  (download_pdf ("https://x/a.pdf") ("PDFs") emptyFS HttpResp.reqErr).fs
    (downloadPdfPath ("https://x/a.pdf") ("PDFs")) = none
  ∧ (download_file_to_disk emptyFS ("u") ("PDFs/b.pdf")
      (HttpResp.resp 404 ("") [])).fs ("PDFs/b.pdf") = none :=
  ⟨(failed_download_cleanup ("https://x/a.pdf") ("PDFs") ("u") ("PDFs/b.pdf")
      emptyFS HttpResp.reqErr HttpResp.reqErr).1 (by rfl),
   (failed_download_cleanup ("https://x/a.pdf") ("PDFs") ("u") ("PDFs/b.pdf")
      emptyFS HttpResp.reqErr (HttpResp.resp 404 ("") [])).2 (by rfl) (by rfl)⟩

/-! ## Claim C4 -/

/-- C4: when the destination file already exists, both download functions
return Skipped with no network request issued; consequently, once a call
returns Downloaded, a repeated call with the same destination (and any
network behaviour) returns Skipped. -/
theorem existing_file_skips_and_second_call_skips :
  ∀ (fs : FS) (file_url full_file_path pdf_url output_directory : String)
    (r r2 : HttpResp) (n : Nat),
    (check_file_exists fs full_file_path = true →
      download_file_to_disk fs file_url full_file_path r = ⟨fs, Outcome.skipped, []⟩)
    ∧ (file_exists fs (downloadPdfPath pdf_url output_directory) = true →
        download_pdf pdf_url output_directory fs r = ⟨fs, Outcome.skipped, []⟩)
    ∧ ((download_file_to_disk fs file_url full_file_path r).outcome = Outcome.downloaded n →
        download_file_to_disk (download_file_to_disk fs file_url full_file_path r).fs
          file_url full_file_path r2
          = ⟨(download_file_to_disk fs file_url full_file_path r).fs, Outcome.skipped, []⟩)
    ∧ ((download_pdf pdf_url output_directory fs r).outcome = Outcome.downloaded n →
        download_pdf pdf_url output_directory (download_pdf pdf_url output_directory fs r).fs r2
          = ⟨(download_pdf pdf_url output_directory fs r).fs, Outcome.skipped, []⟩) := by
  intro fs file_url full_file_path pdf_url output_directory r r2 n
  refine ⟨fun h => download_file_to_disk_skip fs file_url full_file_path r h,
    fun h => download_pdf_skip pdf_url output_directory fs r h, fun h => ?_, fun h => ?_⟩
  · obtain ⟨w, _, _, hfile⟩ := download_file_to_disk_downloaded fs file_url full_file_path r n h
    exact download_file_to_disk_skip _ file_url full_file_path r2
      (by simp [check_file_exists, hfile])
  · obtain ⟨w, _, _, hfile⟩ := download_pdf_downloaded pdf_url output_directory fs r n h
    exact download_pdf_skip pdf_url output_directory _ r2
      (by simp [file_exists, hfile])

/-- C4 witness: a concrete Downloaded call followed by a Skipped call, for
both functions, and a concrete pre-existing file being skipped. -/
theorem existing_file_skips_witness :
  download_file_to_disk (FS.write emptyFS ("PDFs/p.pdf") [7]) ("u") ("PDFs/p.pdf")
      HttpResp.reqErr = ⟨FS.write emptyFS ("PDFs/p.pdf") [7], Outcome.skipped, []⟩
  ∧ download_file_to_disk
      (download_file_to_disk emptyFS ("u") ("PDFs/a.pdf")
        (HttpResp.resp 200 ("application/pdf") [StreamEvent.chunk [1, 2]])).fs
      ("u") ("PDFs/a.pdf") HttpResp.reqErr
      = ⟨(download_file_to_disk emptyFS ("u") ("PDFs/a.pdf")
          (HttpResp.resp 200 ("application/pdf") [StreamEvent.chunk [1, 2]])).fs,
        Outcome.skipped, []⟩
  ∧ download_pdf ("https://x/b.pdf") ("PDFs")
      (download_pdf ("https://x/b.pdf") ("PDFs") emptyFS
        (HttpResp.resp 200 ("application/pdf") [StreamEvent.chunk [5]])).fs
      HttpResp.reqErr
      = ⟨(download_pdf ("https://x/b.pdf") ("PDFs") emptyFS
          (HttpResp.resp 200 ("application/pdf") [StreamEvent.chunk [5]])).fs,
        Outcome.skipped, []⟩ :=
  ⟨(existing_file_skips_and_second_call_skips (FS.write emptyFS ("PDFs/p.pdf") [7])
      ("u") ("PDFs/p.pdf") ("x") ("PDFs") HttpResp.reqErr HttpResp.reqErr 1).1 (by rfl),
   (existing_file_skips_and_second_call_skips emptyFS ("u") ("PDFs/a.pdf") ("x") ("PDFs")
      (HttpResp.resp 200 ("application/pdf") [StreamEvent.chunk [1, 2]])
      HttpResp.reqErr 2).2.2.1 (by rfl),
   (existing_file_skips_and_second_call_skips emptyFS ("u") ("PDFs/a.pdf")
      ("https://x/b.pdf") ("PDFs")
      (HttpResp.resp 200 ("application/pdf") [StreamEvent.chunk [5]])
      HttpResp.reqErr 1).2.2.2 (by rfl)⟩

/-! ## Claim C5 -/

/-- C5: a successful HTTP exchange whose body contributes zero bytes makes
both download functions delete the just-created file and return Failed,
leaving no file at the destination path. -/
theorem zero_byte_download_removes_file :
  ∀ (fs : FS) (file_url full_file_path pdf_url output_directory ct : String)
    (status : Nat) (events : List StreamEvent),
    (∀ e ∈ events, e = StreamEvent.chunk []) →
    ((fs full_file_path = none → ¬(400 ≤ status ∧ status < 600) →
      (download_file_to_disk fs file_url full_file_path
          (HttpResp.resp status ct events)).outcome = Outcome.failed
      ∧ (download_file_to_disk fs file_url full_file_path
          (HttpResp.resp status ct events)).fs full_file_path = none)
    ∧ (fs (downloadPdfPath pdf_url output_directory) = none →
        contentTypeOk ct = true →
        (download_pdf pdf_url output_directory fs
            (HttpResp.resp 200 ct events)).outcome = Outcome.failed
        ∧ (download_pdf pdf_url output_directory fs
            (HttpResp.resp 200 ct events)).fs
            (downloadPdfPath pdf_url output_directory) = none)) := by
  intro fs file_url full_file_path pdf_url output_directory ct status events hall
  constructor
  · intro hnone hst
    have hex : check_file_exists fs full_file_path = false := by
      simp [check_file_exists, hnone]
    have hrs := runStream_empty_chunks full_file_path events
      (FS.write fs full_file_path []) [] hall
    refine ⟨?_, ?_⟩ <;>
      simp [download_file_to_disk, hex, hst, hrs, FS.erase_self]
  · intro hnone hct
    have hex : file_exists fs (downloadPdfPath pdf_url output_directory) = false := by
      simp [file_exists, hnone]
    have hrs := runStream_empty_chunks (downloadPdfPath pdf_url output_directory) events
      (FS.write fs (downloadPdfPath pdf_url output_directory) []) [] hall
    refine ⟨?_, ?_⟩ <;>
      simp [download_pdf, hex, hct, hrs, FS.erase_self]

/-- C5 witness: both zero-byte guarantees evaluated at concrete inputs. -/
theorem zero_byte_download_removes_file_witness :
  ((download_file_to_disk emptyFS ("u") ("PDFs/c.pdf")
      (HttpResp.resp 200 ("application/pdf") [])).outcome = Outcome.failed
    ∧ (download_file_to_disk emptyFS ("u") ("PDFs/c.pdf")
        (HttpResp.resp 200 ("application/pdf") [])).fs ("PDFs/c.pdf") = none)
  ∧ ((download_pdf ("https://x/c.pdf") ("PDFs") emptyFS
      (HttpResp.resp 200 ("application/pdf") [StreamEvent.chunk []])).outcome = Outcome.failed
    ∧ (download_pdf ("https://x/c.pdf") ("PDFs") emptyFS
        (HttpResp.resp 200 ("application/pdf") [StreamEvent.chunk []])).fs
        (downloadPdfPath ("https://x/c.pdf") ("PDFs")) = none) :=
  ⟨(zero_byte_download_removes_file emptyFS ("u") ("PDFs/c.pdf") ("x") ("PDFs")
      ("application/pdf") 200 [] (by simp)).1 rfl (by simp),
   (zero_byte_download_removes_file emptyFS ("u") ("PDFs/c.pdf") ("https://x/c.pdf")
      ("PDFs") ("application/pdf") 200 [StreamEvent.chunk []] (by simp)).2 rfl (by rfl)⟩

/-! ## Claim C10 -/

/-- C10: both download functions collapse their outcome to one boolean:
True only for a completed, nonzero-byte, written download; False both for
the skip case (file already present) and for every failure, so the boolean
alone cannot separate Skipped from Failed — witnessed by one concrete
Skipped call and one concrete Failed call both returning False. -/
theorem download_return_bool_ambiguous :
  ∀ (fs : FS) (file_url full_file_path pdf_url output_directory : String)
    (r : HttpResp),
    (pyReturnBool (download_file_to_disk fs file_url full_file_path r).outcome = true →
      ∃ w : List Nat,
        (download_file_to_disk fs file_url full_file_path r).outcome
          = Outcome.downloaded w.length
        ∧ 0 < w.length
        ∧ (download_file_to_disk fs file_url full_file_path r).fs full_file_path = some w)
    ∧ ((download_file_to_disk fs file_url full_file_path r).outcome = Outcome.skipped ∨
        (download_file_to_disk fs file_url full_file_path r).outcome = Outcome.failed →
        pyReturnBool (download_file_to_disk fs file_url full_file_path r).outcome = false)
    ∧ (pyReturnBool (download_pdf pdf_url output_directory fs r).outcome = true →
        ∃ w : List Nat,
          (download_pdf pdf_url output_directory fs r).outcome = Outcome.downloaded w.length
          ∧ 0 < w.length
          ∧ (download_pdf pdf_url output_directory fs r).fs
              (downloadPdfPath pdf_url output_directory) = some w)
    ∧ ((download_pdf pdf_url output_directory fs r).outcome = Outcome.skipped ∨
        (download_pdf pdf_url output_directory fs r).outcome = Outcome.failed →
        pyReturnBool (download_pdf pdf_url output_directory fs r).outcome = false)
    ∧ ((download_file_to_disk (FS.write emptyFS ("PDFs/p.pdf") [7]) ("u") ("PDFs/p.pdf")
          HttpResp.reqErr).outcome = Outcome.skipped
        ∧ pyReturnBool (download_file_to_disk (FS.write emptyFS ("PDFs/p.pdf") [7]) ("u")
            ("PDFs/p.pdf") HttpResp.reqErr).outcome = false)
    ∧ ((download_file_to_disk emptyFS ("u") ("PDFs/p.pdf") HttpResp.reqErr).outcome
          = Outcome.failed
        ∧ pyReturnBool (download_file_to_disk emptyFS ("u") ("PDFs/p.pdf")
            HttpResp.reqErr).outcome = false) := by
  intro fs file_url full_file_path pdf_url output_directory r
  refine ⟨fun h => ?_, fun h => ?_, fun h => ?_, fun h => ?_, ⟨rfl, rfl⟩, ⟨rfl, rfl⟩⟩
  · rcases ho : (download_file_to_disk fs file_url full_file_path r).outcome with _ | n | _
    · rw [ho] at h; simp [pyReturnBool] at h
    · obtain ⟨w, hn, hpos, hfile⟩ :=
        download_file_to_disk_downloaded fs file_url full_file_path r n ho
      exact ⟨w, by rw [hn], hpos, hfile⟩
    · rw [ho] at h; simp [pyReturnBool] at h
  · rcases h with h | h <;> rw [h] <;> rfl
  · rcases ho : (download_pdf pdf_url output_directory fs r).outcome with _ | n | _
    · rw [ho] at h; simp [pyReturnBool] at h
    · obtain ⟨w, hn, hpos, hfile⟩ :=
        download_pdf_downloaded pdf_url output_directory fs r n ho
      exact ⟨w, by rw [hn], hpos, hfile⟩
    · rw [ho] at h; simp [pyReturnBool] at h
  · rcases h with h | h <;> rw [h] <;> rfl

/-- C10 witness: the True-implies-Downloaded direction evaluated at a
concrete nonzero-byte download. -/
theorem download_return_bool_ambiguous_witness :
  ∃ w : List Nat,
    (download_file_to_disk emptyFS ("u") ("PDFs/a.pdf")
        (HttpResp.resp 200 ("application/pdf") [StreamEvent.chunk [1, 2]])).outcome
      = Outcome.downloaded w.length
    ∧ 0 < w.length
    ∧ (download_file_to_disk emptyFS ("u") ("PDFs/a.pdf")
        (HttpResp.resp 200 ("application/pdf") [StreamEvent.chunk [1, 2]])).fs
        ("PDFs/a.pdf") = some w :=
  (download_return_bool_ambiguous emptyFS ("u") ("PDFs/a.pdf") ("x") ("PDFs")
    (HttpResp.resp 200 ("application/pdf") [StreamEvent.chunk [1, 2]])).1 (by rfl)

/-! ## Helper lemmas: pattern matching in HTML -/

theorem takeWhile_append_of_all (p : Char → Bool) (x : Char) (b : List Char) :
    ∀ a : List Char, (∀ c ∈ a, p c = true) → p x = false →
      (a ++ x :: b).takeWhile p = a := by
  intro a
  induction a with
  | nil => intro _ hx; simp [List.takeWhile, hx]
  | cons c a' ih =>
    intro hall hx
    have hc : p c = true := hall c (by simp)
    rw [List.cons_append, List.takeWhile_cons, if_pos hc,
      ih (fun d hd => hall d (List.mem_cons_of_mem c hd)) hx]

theorem findIframeSrc_of_tryIframeAt (l : List Char) (s : List Char)
    (h : tryIframeAt l = some s) : findIframeSrc l = some s := by
  cases l with
  | nil => simp [tryIframeAt, iframePat, List.isPrefixOf] at h
  | cons c t => simp [findIframeSrc, h]

theorem tryIframeAt_head_match (src post : List Char)
    (hlen : 5 ≤ src.length) (hq : ∀ c ∈ src, c ≠ '"')
    (hsuf : ((".pdf").data).isSuffixOf src = true) :
    tryIframeAt (iframePat ++ src ++ '"' :: post) = some src := by
  have hpref : iframePat.isPrefixOf (iframePat ++ src ++ '"' :: post) = true := by
    rw [List.append_assoc]
    exact ( List.isPrefixOf_iff_prefix).2 (List.prefix_append _ _)
  have hdrop : (iframePat ++ src ++ '"' :: post).drop iframePat.length
      = src ++ '"' :: post := by
    rw [List.append_assoc]
    exact List.drop_left _ _
  have hspan : (src ++ '"' :: post).takeWhile (fun c => c ≠ '"') = src := by
    refine takeWhile_append_of_all _ '"' post src ?_ (by simp)
    intro c hc
    simpa using hq c hc
  have hcond : src.length < (src ++ '"' :: post).length := by
    simp only [List.length_append, List.length_cons]
    omega
  simp only [tryIframeAt, hpref, if_true, hdrop, hspan]
  rw [if_pos ⟨hcond, hsuf, hlen⟩]

/-! ## Claim C6 -/

/-- C6: dynamic-mode URL resolution.  On a 2xx response containing the
iframe-src pattern with a quote-free value ending in ".pdf", the function
returns the backend base URL concatenated with the first captured value —
evaluated concretely on the example body and proved for every body whose
text starts with such a tag; when the pattern finds no match (or the
request fails) the function returns the empty string instead of raising. -/
theorem resolve_iframe_extraction :
  ∀ (status : Nat) (body : String) (src post : List Char) (p : List Char),
    (resolve_pdf_url_from_token (TextResp.ok 200
        ("<html><body><iframe src=\"/files/42/manual.pdf\"></iframe></body></html>"))
      = ("https://www.kiatechinfo.com/files/42/manual.pdf"))
    ∧ (¬(400 ≤ status ∧ status < 600) → findIframeSrc body.data = none →
        resolve_pdf_url_from_token (TextResp.ok status body) = "")
    ∧ (¬(400 ≤ status ∧ status < 600) → findIframeSrc body.data = some p →
        resolve_pdf_url_from_token (TextResp.ok status body)
          = TECH_INFO_BASE_DOMAIN ++ String.mk p)
    ∧ (resolve_pdf_url_from_token TextResp.reqErr = "")
    ∧ (5 ≤ src.length → (∀ c ∈ src, c ≠ '"') →
        ((".pdf").data).isSuffixOf src = true →
        findIframeSrc (iframePat ++ src ++ '"' :: post) = some src) := by
  intro status body src post p
  refine ⟨by rfl, fun hst hnone => ?_, fun hst hsome => ?_, rfl,
    fun hlen hq hsuf => ?_⟩
  · simp [resolve_pdf_url_from_token, hst, hnone]
  · simp [resolve_pdf_url_from_token, hst, hsome]
  · exact findIframeSrc_of_tryIframeAt _ src (tryIframeAt_head_match src post hlen hq hsuf)

/-- C6 witness: the no-match and head-match cases at concrete inputs. -/
theorem resolve_iframe_extraction_witness :
  resolve_pdf_url_from_token (TextResp.ok 200 ("<html>no frame</html>")) = ""
  ∧ findIframeSrc (iframePat ++ ("/a/b.pdf").data ++ '"' :: ("</x>").data)
    = some (("/a/b.pdf").data) :=
  ⟨(resolve_iframe_extraction 200 ("<html>no frame</html>") [] [] []).2.1
      (by simp) (by rfl),
   (resolve_iframe_extraction 200 ("") (("/a/b.pdf").data) (("</x>").data) []).2.2.2.2
      (by simp) (by decide) (by rfl)⟩

/-! ## Helper lemmas: static-page scanner -/

theorem pdfScanGo_sound :
    ∀ (l : List Char) (m : Option (List Char)),
      (∀ acc, m = some acc → squote ∉ acc) →
      ∀ s ∈ pdfScanGo l m, goodSpan s = true ∧ squote ∉ s := by
  intro l
  induction l with
  | nil => intro m _ s hs; simp [pdfScanGo] at hs
  | cons c t ih =>
    intro m hm s hs
    cases m with
    | none =>
      by_cases hc : c = squote
      · simp only [pdfScanGo, if_pos hc] at hs
        exact ih (some []) (by intro acc h; cases h; simp) s hs
      · simp only [pdfScanGo, if_neg hc] at hs
        exact ih none (by intro acc h; cases h) s hs
    | some acc =>
      have hacc : squote ∉ acc := hm acc rfl
      by_cases hc : c = squote
      · by_cases hg : goodSpan acc.reverse = true
        · simp only [pdfScanGo, if_pos hc, if_pos hg, List.mem_cons] at hs
          rcases hs with hs | hs
          · subst hs
            exact ⟨hg, by simpa using hacc⟩
          · exact ih none (by intro a h; cases h) s hs
        · simp only [pdfScanGo, if_pos hc, if_neg hg] at hs
          exact ih (some []) (by intro a h; cases h; simp) s hs
      · simp only [pdfScanGo, if_neg hc] at hs
        refine ih (some (c :: acc)) ?_ s hs
        intro a h
        cases h
        simp only [List.mem_cons, not_or]
        exact ⟨fun hcs => hc hcs.symm, hacc⟩

/-! ## Claim C8 -/

/-- C8 counterexample: the static-page regex is case-sensitive, so the
mixed-case path '/FileServerRoot/abc/guide.PDF' inside a quoted HTML blob
yields NO match, not the path minus quotes as the claim asserts. -/
theorem static_extraction_case_sensitive_counterexample :
  extract_static_pdf_paths (String.mk (("<a href=").data ++ [squote] ++
      ("/FileServerRoot/abc/guide.PDF").data ++ [squote] ++ (">").data)) = []
  ∧ extract_pdf_files (String.mk (("<a href=").data ++ [squote] ++
      ("/FileServerRoot/abc/guide.PDF").data ++ [squote] ++ (">").data)) = [] := by
  constructor <;> rfl

/-- C8 amended: static-mode extraction returns the single-quote-delimited
substrings matching the /FileServerRoot...pdf pattern with the quotes
stripped, matching the literal ".pdf" case-sensitively: every returned
path starts with /FileServerRoot, ends in lowercase ".pdf" and contains
no single quote; the lowercase example is returned, the mixed-case ".PDF"
example is not matched, and zero matches give an empty list, not an
error; src/downloader.py extract_pdf_files behaves identically. -/
theorem static_extraction_matches :
  ∀ (html p : String),
    (p ∈ extract_static_pdf_paths html →
      (("/FileServerRoot").data).isPrefixOf p.data = true
      ∧ ((".pdf").data).isSuffixOf p.data = true
      ∧ squote ∉ p.data)
    ∧ extract_static_pdf_paths ("<div>no links</div>") = []
    ∧ extract_static_pdf_paths (String.mk (("<a href=").data ++ [squote] ++
        ("/FileServerRoot/abc/guide.pdf").data ++ [squote] ++ (">").data))
      = [("/FileServerRoot/abc/guide.pdf")]
    ∧ extract_pdf_files html = extract_static_pdf_paths html := by
  intro html p
  refine ⟨fun hp => ?_, by rfl, by rfl, rfl⟩
  obtain ⟨s, hs, hmk⟩ := List.mem_map.1 hp
  have hdata : p.data = s := by rw [← hmk]
  obtain ⟨hg, hq⟩ := pdfScanGo_sound html.data none (by intro a h; cases h) s hs
  rw [hdata]
  simp only [goodSpan, Bool.and_eq_true, decide_eq_true_eq] at hg
  exact ⟨hg.1.1, hg.1.2, hq⟩

/-- C8 witness: the soundness direction evaluated at the concrete
lowercase example. -/
theorem static_extraction_matches_witness :
  (("/FileServerRoot").data).isPrefixOf ("/FileServerRoot/abc/guide.pdf").data = true
  ∧ ((".pdf").data).isSuffixOf ("/FileServerRoot/abc/guide.pdf").data = true
  ∧ squote ∉ ("/FileServerRoot/abc/guide.pdf").data :=
  (static_extraction_matches (String.mk (("<a href=").data ++ [squote] ++
      ("/FileServerRoot/abc/guide.pdf").data ++ [squote] ++ (">").data))
    ("/FileServerRoot/abc/guide.pdf")).1 (by decide)

/-! ## Helper lemmas: trace shape of the primary-mode run -/

/-- Is this event a session refresh? -/
def isRefreshEv : Event → Bool
  | .refresh => true
  | _ => false

/-- Is this event a token-to-URL resolution exchange? -/
def isResolveEv : Event → Bool
  | .resolveExchange _ => true
  | _ => false

/-- Traces in which every resolution exchange is immediately preceded by
its own session refresh, and every refresh is immediately followed by a
resolution exchange. -/
inductive PairedTrace : List Event → Prop
  | nil : PairedTrace []
  | skip (e : Event) (t : List Event) : isRefreshEv e = false →
      isResolveEv e = false → PairedTrace t → PairedTrace (e :: t)
  | pair (tok : String) (t : List Event) : PairedTrace t →
      PairedTrace (Event.refresh :: Event.resolveExchange tok :: t)

theorem PairedTrace.append {a b : List Event} (ha : PairedTrace a)
    (hb : PairedTrace b) : PairedTrace (a ++ b) := by
  induction ha with
  | nil => simpa using hb
  | skip e t he1 he2 _ ih => exact PairedTrace.skip e _ he1 he2 ih
  | pair tok t _ ih => exact PairedTrace.pair tok _ ih

theorem PairedTrace.resolve_preceded {t : List Event} (ht : PairedTrace t) :
    ∀ (i : Nat) (tok : String), t[i]? = some (Event.resolveExchange tok) →
      ∃ j, i = j + 1 ∧ t[j]? = some Event.refresh := by
  induction ht with
  | nil => intro i tok h; simp at h
  | skip e t' he1 he2 _ ih =>
    intro i tok h
    cases i with
    | zero =>
      rw [List.getElem?_cons_zero] at h
      injection h with h2
      rw [h2] at he2
      simp [isResolveEv] at he2
    | succ k =>
      rw [List.getElem?_cons_succ] at h
      obtain ⟨j, hj1, hj2⟩ := ih k tok h
      exact ⟨j + 1, by omega, by rw [List.getElem?_cons_succ]; exact hj2⟩
  | pair tok' t' _ ih =>
    intro i tok h
    match i with
    | 0 => simp at h
    | 1 => exact ⟨0, rfl, rfl⟩
    | k + 2 =>
      simp only [List.getElem?_cons_succ] at h
      obtain ⟨j, hj1, hj2⟩ := ih k tok h
      exact ⟨j + 2, by omega, by simp only [List.getElem?_cons_succ]; exact hj2⟩

theorem PairedTrace.refresh_followed {t : List Event} (ht : PairedTrace t) :
    ∀ j : Nat, t[j]? = some Event.refresh →
      ∃ tok, t[j + 1]? = some (Event.resolveExchange tok) := by
  induction ht with
  | nil => intro j h; simp at h
  | skip e t' he1 he2 _ ih =>
    intro j h
    cases j with
    | zero =>
      rw [List.getElem?_cons_zero] at h
      injection h with h2
      rw [h2] at he1
      simp [isRefreshEv] at he1
    | succ k =>
      rw [List.getElem?_cons_succ] at h
      obtain ⟨tok, htok⟩ := ih k h
      exact ⟨tok, by rw [List.getElem?_cons_succ]; exact htok⟩
  | pair tok' t' _ ih =>
    intro j h
    match j with
    | 0 => exact ⟨tok', by simp⟩
    | 1 => simp at h
    | k + 2 =>
      simp only [List.getElem?_cons_succ] at h
      obtain ⟨tok, htok⟩ := ih k h
      exact ⟨tok, by simp only [List.getElem?_cons_succ]; exact htok⟩

theorem PairedTrace.counts {t : List Event} (ht : PairedTrace t) :
    t.countP isRefreshEv = t.countP isResolveEv := by
  induction ht with
  | nil => rfl
  | skip e t' he1 he2 _ ih => simp [List.countP_cons, he1, he2, ih]
  | pair tok t' _ ih =>
    simp [List.countP_cons, isRefreshEv, isResolveEv, ih]

theorem processTokens_paired (env : Env) (y : Nat) (n : String) :
    ∀ (toks : List String) (i : Nat) (fs : FS),
      PairedTrace (processTokens env y n toks i fs).2 := by
  intro toks
  induction toks with
  | nil => intro i fs; exact PairedTrace.nil
  | cons tok rest ih =>
    intro i fs
    simp only [processTokens]
    refine PairedTrace.pair tok _ ?_
    by_cases h : resolve_pdf_url_from_token (env.exchangeResp tok) = ""
    · simp only [h, if_pos rfl]
      exact PairedTrace.append PairedTrace.nil (ih _ _)
    · simp only [if_neg h]
      exact PairedTrace.append
        (PairedTrace.skip _ _ rfl rfl PairedTrace.nil) (ih _ _)

theorem processModels_paired (env : Env) :
    ∀ (models : List CarModel) (fs : FS),
      PairedTrace (processModels env models fs).2 := by
  intro models
  induction models with
  | nil => intro fs; exact PairedTrace.nil
  | cons car rest ih =>
    intro fs
    rcases hmy : car.modelYear with _ | y
    · simp only [processModels, hmy]; exact ih fs
    · rcases hmn : car.modelName with _ | n
      · simp only [processModels, hmy, hmn]; exact ih fs
      · by_cases hc : (decide (y = 0) || decide (n = "")) = true
        · simp only [processModels, hmy, hmn, hc, if_pos rfl]
          exact ih fs
        · simp only [processModels, hmy, hmn, hc, Bool.false_eq_true, if_false]
          exact PairedTrace.skip _ _ rfl rfl
            (PairedTrace.append (processTokens_paired env y n _ 0 fs) (ih _))

theorem processModels_tokenFetch (env : Env) :
    ∀ (models : List CarModel) (fs : FS) (car : CarModel) (y : Nat) (n : String),
      car ∈ models → car.modelYear = some y → car.modelName = some n →
      y ≠ 0 → n ≠ "" →
      Event.tokenFetch y n ∈ (processModels env models fs).2 := by
  intro models
  induction models with
  | nil => intro fs car y n h; simp at h
  | cons m rest ih =>
    intro fs car y n hmem hy hn hy0 hn0
    rcases List.mem_cons.1 hmem with heq | hmem2
    · subst heq
      have hc : (decide (y = 0) || decide (n = "")) = false := by
        simp [hy0, hn0]
      simp only [processModels, hy, hn, hc, Bool.false_eq_true, if_false]
      exact List.mem_cons_self _ _
    · rcases hmy : m.modelYear with _ | y'
      · simp only [processModels, hmy]
        exact ih fs car y n hmem2 hy hn hy0 hn0
      · rcases hmn : m.modelName with _ | n'
        · simp only [processModels, hmy, hmn]
          exact ih fs car y n hmem2 hy hn hy0 hn0
        · by_cases hc : (decide (y' = 0) || decide (n' = "")) = true
          · simp only [processModels, hmy, hmn, hc, if_pos rfl]
            exact ih fs car y n hmem2 hy hn hy0 hn0
          · simp only [processModels, hmy, hmn, hc, Bool.false_eq_true, if_false]
            refine List.mem_cons_of_mem _ (List.mem_append_right _ ?_)
            exact ih _ car y n hmem2 hy hn hy0 hn0

/-! ## Claim C2 -/

/-- C2: the run exits nonzero exactly when the dynamic-mode catalog fetch
yields an empty model list (in particular for the empty vehicleModelHU
payload); in that case the trace is empty, so no token-endpoint request
was made; otherwise the run visits every well-formed model — per-item
failures never abort it — and KGIS mode always exits zero. -/
theorem empty_catalog_aborts_run :
  ∀ (kgisFlag : Bool) (env : Env) (kenv : KgisEnv),
    ((main kgisFlag env kenv).exitCode ≠ 0 ↔
      kgisFlag = false ∧ fetch_all_model_years env.catalogResp = [])
    ∧ (fetch_all_model_years env.catalogResp = [] →
        (main false env kenv).trace = [])
    ∧ (∀ car ∈ fetch_all_model_years env.catalogResp, ∀ y n,
        car.modelYear = some y → car.modelName = some n → y ≠ 0 → n ≠ "" →
        Event.tokenFetch y n ∈ (main false env kenv).trace) := by
  intro kgisFlag env kenv
  by_cases hc : fetch_all_model_years env.catalogResp = []
  · refine ⟨?_, fun _ => ?_, ?_⟩
    · cases kgisFlag with
      | false =>
        simp only [main, Bool.false_eq_true, if_false,
          execute_model_specific_download, hc, if_pos rfl]
        simp
      | true =>
        simp only [main, if_pos rfl, execute_kgis_static_download]
        simp
    · simp [main, execute_model_specific_download, hc]
    · intro car hcar
      rw [hc] at hcar
      simp at hcar
  · refine ⟨?_, fun h => absurd h hc, ?_⟩
    · cases kgisFlag with
      | false =>
        simp only [main, Bool.false_eq_true, if_false,
          execute_model_specific_download, hc, if_neg hc]
        simp [hc]
      | true =>
        simp only [main, if_pos rfl, execute_kgis_static_download]
        simp
    · intro car hcar y n hy hn hy0 hn0
      simp only [main, Bool.false_eq_true, if_false,
        execute_model_specific_download, if_neg hc]
      exact processModels_tokenFetch env _ env.fs0 car y n hcar hy hn hy0 hn0

/-- A run environment whose catalog response carries an empty
vehicleModelHU list and whose other calls all fail. -/
def sampleEmptyCatalogEnv : Env :=
  ⟨CatalogResp.payload (some []), fun _ _ => TokenResp.reqErr,
   fun _ => RefreshResp.reqErr, fun _ => TextResp.reqErr,
   fun _ => HttpResp.reqErr, emptyFS⟩

/-- A KGIS environment whose scrapes all fail. -/
def sampleKgisEnv : KgisEnv :=
  ⟨fun _ => TextResp.reqErr, fun _ => HttpResp.reqErr, emptyFS⟩

/-- An environment with one model and one token whose whole pipeline
succeeds. -/
def sampleRunEnv : Env :=
  ⟨CatalogResp.payload (some [⟨some 2024, some ("Rio")⟩]),
   fun _ _ => TokenResp.payload (some [some ("tok1")]),
   fun _ => RefreshResp.ok 200,
   fun _ => TextResp.ok 200 ("<iframe src=\"/m/a.pdf\">"),
   fun _ => HttpResp.resp 200 ("application/pdf") [StreamEvent.chunk [1]],
   emptyFS⟩

/-- C2 witness: the empty-payload catalog aborts with a nonzero exit code
and an empty trace; the one-model catalog reaches its token fetch. -/
theorem empty_catalog_aborts_run_witness :
  (main false sampleEmptyCatalogEnv sampleKgisEnv).exitCode ≠ 0
  ∧ (main false sampleEmptyCatalogEnv sampleKgisEnv).trace = []
  ∧ Event.tokenFetch 2024 ("Rio") ∈ (main false sampleRunEnv sampleKgisEnv).trace :=
  ⟨(empty_catalog_aborts_run false sampleEmptyCatalogEnv sampleKgisEnv).1.mpr
      ⟨rfl, rfl⟩,
   (empty_catalog_aborts_run false sampleEmptyCatalogEnv sampleKgisEnv).2.1 rfl,
   (empty_catalog_aborts_run false sampleRunEnv sampleKgisEnv).2.2
     ⟨some 2024, some ("Rio")⟩ (by decide) 2024 ("Rio") rfl rfl (by decide)
     (by decide)⟩

/-! ## Claim C9 -/

theorem processTokens_refresh_irrel (env : Env) (f : String → RefreshResp)
    (y : Nat) (n : String) :
    ∀ (toks : List String) (i : Nat) (fs : FS),
      processTokens { env with refreshResp := f } y n toks i fs
        = processTokens env y n toks i fs := by
  intro toks
  induction toks with
  | nil => intro i fs; rfl
  | cons tok rest ih =>
    intro i fs
    simp only [processTokens]
    rw [ih]

theorem processModels_refresh_irrel (env : Env) (f : String → RefreshResp) :
    ∀ (models : List CarModel) (fs : FS),
      processModels { env with refreshResp := f } models fs
        = processModels env models fs := by
  intro models
  induction models with
  | nil => intro fs; rfl
  | cons car rest ih =>
    intro fs
    rcases hmy : car.modelYear with _ | y
    · simp only [processModels, hmy]; exact ih fs
    · rcases hmn : car.modelName with _ | n
      · simp only [processModels, hmy, hmn]; exact ih fs
      · by_cases hc : (decide (y = 0) || decide (n = "")) = true
        · simp only [processModels, hmy, hmn, hc, if_pos rfl]; exact ih fs
        · simp only [processModels, hmy, hmn, hc, Bool.false_eq_true, if_false]
          rw [processTokens_refresh_irrel, ih]

theorem execute_refresh_irrel (env : Env) (f : String → RefreshResp) :
    execute_model_specific_download { env with refreshResp := f }
      = execute_model_specific_download env := by
  by_cases hc : fetch_all_model_years env.catalogResp = []
  · simp [execute_model_specific_download, hc]
  · simp only [execute_model_specific_download, if_neg hc]
    rw [processModels_refresh_irrel]

/-- C9: in the primary-mode trace, every URL-resolution exchange is
immediately preceded by a session refresh, every refresh is immediately
followed by a resolution exchange, refresh and resolution events are
equinumerous (exactly one refresh per token processed), and the entire
run result is unchanged under ANY replacement of the refresh responses —
failed refreshes are swallowed and never abort the pipeline. -/
theorem refresh_precedes_resolution :
  ∀ env : Env,
    (∀ (i : Nat) (tok : String),
      ((execute_model_specific_download env).trace)[i]?
          = some (Event.resolveExchange tok) →
        ∃ j, i = j + 1 ∧
          ((execute_model_specific_download env).trace)[j]? = some Event.refresh)
    ∧ (∀ j : Nat,
        ((execute_model_specific_download env).trace)[j]? = some Event.refresh →
        ∃ tok, ((execute_model_specific_download env).trace)[j + 1]?
          = some (Event.resolveExchange tok))
    ∧ ((execute_model_specific_download env).trace).countP isRefreshEv
        = ((execute_model_specific_download env).trace).countP isResolveEv
    ∧ (∀ f : String → RefreshResp,
        execute_model_specific_download { env with refreshResp := f }
          = execute_model_specific_download env) := by
  intro env
  have hp : PairedTrace (execute_model_specific_download env).trace := by
    by_cases hc : fetch_all_model_years env.catalogResp = []
    · simp only [execute_model_specific_download, hc, if_pos rfl]
      exact PairedTrace.nil
    · simp only [execute_model_specific_download, if_neg hc]
      exact processModels_paired env _ env.fs0
  exact ⟨hp.resolve_preceded, hp.refresh_followed, hp.counts,
    fun f => execute_refresh_irrel env f⟩

/-- C9 witness: in the concrete one-token run the resolution exchange at
index 2 is preceded by the refresh at index 1, and that refresh is
followed by a resolution exchange. -/
theorem refresh_precedes_resolution_witness :
  (∃ j, 2 = j + 1 ∧
    ((execute_model_specific_download sampleRunEnv).trace)[j]? = some Event.refresh)
  ∧ (∃ tok, ((execute_model_specific_download sampleRunEnv).trace)[2]?
      = some (Event.resolveExchange tok)) :=
  ⟨(refresh_precedes_resolution sampleRunEnv).1 2 ("tok1") (by rfl),
   (refresh_precedes_resolution sampleRunEnv).2.1 1 (by rfl)⟩

/-! ## Helper lemmas: sanitizer character classes -/

/-- Characters that can appear in a primary-mode sanitized stem. -/
def goodStemChar (c : Char) : Bool := isLowerAlnum c || c = '_'

/-- Lists with no two adjacent underscores. -/
inductive NoDoubleUS : List Char → Prop
  | nil : NoDoubleUS []
  | single (c : Char) : NoDoubleUS [c]
  | cons2 (a b : Char) (t : List Char) : ¬(a = '_' ∧ b = '_') →
      NoDoubleUS (b :: t) → NoDoubleUS (a :: b :: t)

theorem NoDoubleUS.tail {c : Char} {t : List Char}
    (h : NoDoubleUS (c :: t)) : NoDoubleUS t := by
  cases h with
  | single _ => exact NoDoubleUS.nil
  | cons2 _ _ _ _ h2 => exact h2

theorem goodStemChar_toNat {c : Char} (h : goodStemChar c = true) :
    (97 ≤ c.toNat ∧ c.toNat ≤ 122) ∨ (48 ≤ c.toNat ∧ c.toNat ≤ 57) ∨
      c.toNat = 95 := by
  simp only [goodStemChar, isLowerAlnum, Bool.or_eq_true, Bool.and_eq_true,
    decide_eq_true_eq] at h
  rcases h with (h | h) | h
  · exact Or.inl h
  · exact Or.inr (Or.inl h)
  · subst h; exact Or.inr (Or.inr rfl)

theorem goodStemChar_facts {c : Char} (h : goodStemChar c = true) :
    c ≠ '/' ∧ c ≠ '%' ∧ pyLower c = c := by
  refine ⟨fun he => ?_, fun he => ?_, ?_⟩
  · rw [he] at h; exact absurd h (by decide)
  · rw [he] at h; exact absurd h (by decide)
  · have h2 := goodStemChar_toNat h
    have hcond : ¬ ((65 ≤ c.toNat && c.toNat ≤ 90) = true) := by
      simp only [Bool.and_eq_true, decide_eq_true_eq, not_and]
      omega
    simp [pyLower, hcond]

theorem mem_mapInvalidL {l : List Char} {c : Char} (h : c ∈ mapInvalidL l) :
    goodStemChar c = true := by
  obtain ⟨x, _, hx⟩ := List.mem_map.1 h
  by_cases hk : isLowerAlnum x = true
  · rw [if_pos hk] at hx
    subst hx
    simp [goodStemChar, hk]
  · rw [if_neg hk] at hx
    subst hx
    decide

theorem mapInvalidL_id {l : List Char} (h : ∀ c ∈ l, goodStemChar c = true) :
    mapInvalidL l = l := by
  unfold mapInvalidL
  have hpt : ∀ c ∈ l, (if isLowerAlnum c then c else '_') = id c := by
    intro c hc
    by_cases hk : isLowerAlnum c = true
    · simp [hk]
    · have hgc := h c hc
      simp only [goodStemChar, Bool.or_eq_true, decide_eq_true_eq] at hgc
      rcases hgc with hgc | hgc
      · exact absurd hgc hk
      · rw [if_neg hk]
        subst hgc
        rfl
  rw [List.map_congr_left hpt, List.map_id]

/-! ## Helper lemmas: collapseUnderscoresL -/

theorem mem_collapseUnderscoresL :
    ∀ {l : List Char} {c : Char}, c ∈ collapseUnderscoresL l → c ∈ l := by
  intro l
  induction l using collapseUnderscoresL.induct with
  | case1 => intro c h; simp [collapseUnderscoresL] at h
  | case2 d => intro c h; simpa [collapseUnderscoresL] using h
  | case3 a b t hab ih =>
    intro c h
    rw [collapseUnderscoresL, if_pos hab] at h
    exact List.mem_cons_of_mem a (ih h)
  | case4 a b t hab ih =>
    intro c h
    rw [collapseUnderscoresL, if_neg hab] at h
    rcases List.mem_cons.1 h with h2 | h2
    · exact h2 ▸ List.mem_cons_self _ _
    · exact List.mem_cons_of_mem a (ih h2)

theorem collapseUnderscoresL_head :
    ∀ (l : List Char), l ≠ [] →
      (collapseUnderscoresL l).head? = l.head? := by
  intro l
  induction l using collapseUnderscoresL.induct with
  | case1 => intro h; exact absurd rfl h
  | case2 d => intro _; rfl
  | case3 a b t hab ih =>
    intro _
    rw [collapseUnderscoresL, if_pos hab, ih (by simp)]
    simp only [Bool.and_eq_true, decide_eq_true_eq] at hab
    rw [hab.1, hab.2]
    rfl
  | case4 a b t hab ih =>
    intro _
    rw [collapseUnderscoresL, if_neg hab]
    rfl

theorem collapseUnderscoresL_noDouble :
    ∀ l : List Char, NoDoubleUS (collapseUnderscoresL l) := by
  intro l
  induction l using collapseUnderscoresL.induct with
  | case1 => exact NoDoubleUS.nil
  | case2 d => exact NoDoubleUS.single d
  | case3 a b t hab ih => rw [collapseUnderscoresL, if_pos hab]; exact ih
  | case4 a b t hab ih =>
    rw [collapseUnderscoresL, if_neg hab]
    have hh := collapseUnderscoresL_head (b :: t) (by simp)
    cases hcol : collapseUnderscoresL (b :: t) with
    | nil => exact NoDoubleUS.single a
    | cons x xs =>
      rw [hcol] at hh ih
      have hx : x = b := by
        simpa using hh
      refine NoDoubleUS.cons2 a x xs ?_ ih
      subst hx
      simp only [Bool.and_eq_true, decide_eq_true_eq, not_and] at hab ⊢
      intro h1 h2
      exact absurd h2 (hab h1)

theorem collapseUnderscoresL_id :
    ∀ l : List Char, NoDoubleUS l → collapseUnderscoresL l = l := by
  intro l
  induction l using collapseUnderscoresL.induct with
  | case1 => intro _; rfl
  | case2 d => intro _; rfl
  | case3 a b t hab ih =>
    intro hnd
    cases hnd with
    | cons2 _ _ _ h1 _ =>
      simp only [Bool.and_eq_true, decide_eq_true_eq] at hab
      exact absurd hab h1
  | case4 a b t hab ih =>
    intro hnd
    rw [collapseUnderscoresL, if_neg hab, ih hnd.tail]

/-! ## Helper lemmas: dropWhile and dropTrailingWhile -/

theorem head?_dropWhile_not (p : Char → Bool) :
    ∀ (l : List Char) (c : Char), (l.dropWhile p).head? = some c →
      p c = false := by
  intro l
  induction l with
  | nil => intro c h; simp at h
  | cons x t ih =>
    intro c h
    by_cases hx : p x = true
    · rw [List.dropWhile_cons, if_pos hx] at h
      exact ih c h
    · rw [List.dropWhile_cons, if_neg hx] at h
      injection h with h2
      subst h2
      simpa using hx

theorem noDouble_dropWhile (p : Char → Bool) :
    ∀ l : List Char, NoDoubleUS l → NoDoubleUS (l.dropWhile p) := by
  intro l
  induction l with
  | nil => intro _; exact NoDoubleUS.nil
  | cons x t ih =>
    intro h
    by_cases hx : p x = true
    · rw [List.dropWhile_cons, if_pos hx]
      exact ih h.tail
    · rw [List.dropWhile_cons, if_neg hx]
      exact h

theorem dropWhile_id_of_head (p : Char → Bool) (l : List Char)
    (h : ∀ c, l.head? = some c → p c = false) : l.dropWhile p = l := by
  cases l with
  | nil => rfl
  | cons x t =>
    rw [List.dropWhile_cons, if_neg]
    rw [h x rfl]
    simp

theorem mem_dropTrailingWhile (p : Char → Bool) :
    ∀ (l : List Char) (c : Char), c ∈ dropTrailingWhile p l → c ∈ l := by
  intro l
  induction l with
  | nil => intro c h; simp [dropTrailingWhile] at h
  | cons x t ih =>
    intro c h
    rw [dropTrailingWhile] at h
    cases hr : dropTrailingWhile p t with
    | nil =>
      rw [hr] at h
      by_cases hx : p x = true
      · rw [if_pos hx] at h; simp at h
      · rw [if_neg hx] at h
        simp only [List.mem_singleton] at h
        exact h ▸ List.mem_cons_self _ _
    | cons y ys =>
      rw [hr] at h
      rcases List.mem_cons.1 h with h2 | h2
      · exact h2 ▸ List.mem_cons_self _ _
      · exact List.mem_cons_of_mem x (ih c (hr ▸ h2))

theorem head?_dropTrailingWhile (p : Char → Bool) :
    ∀ l : List Char, dropTrailingWhile p l = [] ∨
      (dropTrailingWhile p l).head? = l.head? := by
  intro l
  cases l with
  | nil => exact Or.inl rfl
  | cons x t =>
    rw [dropTrailingWhile]
    cases hr : dropTrailingWhile p t with
    | nil =>
      by_cases hx : p x = true
      · rw [if_pos hx]; exact Or.inl rfl
      · rw [if_neg hx]; exact Or.inr rfl
    | cons y ys => exact Or.inr rfl

theorem getLast?_dropTrailingWhile (p : Char → Bool) :
    ∀ (l : List Char) (c : Char),
      (dropTrailingWhile p l).getLast? = some c → p c = false := by
  intro l
  induction l with
  | nil => intro c h; simp [dropTrailingWhile] at h
  | cons x t ih =>
    intro c h
    rw [dropTrailingWhile] at h
    cases hr : dropTrailingWhile p t with
    | nil =>
      rw [hr] at h
      by_cases hx : p x = true
      · rw [if_pos hx] at h; simp at h
      · rw [if_neg hx] at h
        simp only [List.getLast?_singleton] at h
        injection h with h2
        subst h2
        simpa using hx
    | cons y ys =>
      rw [hr] at h
      rw [List.getLast?_cons_cons] at h
      exact ih c (hr ▸ h)

theorem noDouble_dropTrailingWhile (p : Char → Bool) :
    ∀ l : List Char, NoDoubleUS l → NoDoubleUS (dropTrailingWhile p l) := by
  intro l
  induction l with
  | nil => intro _; exact NoDoubleUS.nil
  | cons x t ih =>
    intro hnd
    rw [dropTrailingWhile]
    cases hr : dropTrailingWhile p t with
    | nil =>
      by_cases hx : p x = true
      · rw [if_pos hx]; exact NoDoubleUS.nil
      · rw [if_neg hx]; exact NoDoubleUS.single x
    | cons y ys =>
      have hrec : NoDoubleUS (y :: ys) := hr ▸ ih hnd.tail
      rcases head?_dropTrailingWhile p t with h0 | h0
      · rw [h0] at hr; exact absurd hr.symm (by simp)
      · rw [hr] at h0
        cases t with
        | nil => simp [dropTrailingWhile] at hr
        | cons z zs =>
          have hy : y = z := by simpa using h0
          subst hy
          cases hnd with
          | cons2 _ _ _ h1 _ =>
            exact NoDoubleUS.cons2 x y ys h1 hrec

theorem dropTrailingWhile_id (p : Char → Bool) :
    ∀ l : List Char, (∀ c, l.getLast? = some c → p c = false) →
      dropTrailingWhile p l = l := by
  intro l
  induction l with
  | nil => intro _; rfl
  | cons x t ih =>
    intro h
    rw [dropTrailingWhile]
    cases t with
    | nil =>
      have hx := h x rfl
      simp [dropTrailingWhile, hx]
    | cons z zs =>
      have ht : dropTrailingWhile p (z :: zs) = z :: zs := by
        refine ih ?_
        intro c hc
        exact h c (by rw [List.getLast?_cons_cons]; exact hc)
      rw [ht]

/-! ## Helper lemmas: identity steps of the sanitizer on clean input -/

theorem unquoteL_cons_ne (c : Char) (t : List Char) (hc : c ≠ '%') :
    unquoteL (c :: t) = c :: unquoteL t := by
  rw [unquoteL.eq_def]
  split
  · rename_i heq; exact absurd heq (by simp)
  · rename_i a b t2 heq
    injection heq with h1 _
    exact absurd h1 hc
  · rename_i c' t' hshape heq
    injection heq with h1 h2
    rw [h1, h2]

theorem unquoteL_id : ∀ l : List Char, '%' ∉ l → unquoteL l = l := by
  intro l
  induction l with
  | nil => intro _; rfl
  | cons c t ih =>
    intro h
    simp only [List.mem_cons, not_or] at h
    rw [unquoteL_cons_ne c t (fun he => h.1 he.symm), ih h.2]

theorem lastSegmentL_id {l : List Char} (h : ∀ c ∈ l, c ≠ '/') :
    lastSegmentL l = l := by
  have ht : l.reverse.takeWhile (fun c => c ≠ '/') = l.reverse := by
    apply List.takeWhile_eq_self_iff.mpr
    intro x hx
    simpa using h x (List.mem_reverse.1 hx)
  unfold lastSegmentL
  rw [ht, List.reverse_reverse]

theorem map_pyLower_id {l : List Char} (h : ∀ c ∈ l, pyLower c = c) :
    l.map pyLower = l := by
  have h2 : ∀ c ∈ l, pyLower c = id c := h
  rw [List.map_congr_left h2, List.map_id]

theorem stripPdfSuffixL_append (l : List Char) :
    stripPdfSuffixL (l ++ (".pdf".data)) = l := by
  have hsuf : ((".pdf".data)).isSuffixOf (l ++ (".pdf".data)) = true :=
    (List.isSuffixOf_iff_suffix).2 (List.suffix_append _ _)
  have hlen : (l ++ (".pdf".data)).length - 4 = l.length := by simp
  rw [stripPdfSuffixL, if_pos hsuf, hlen, List.take_left]

/-! ## Properties of the primary-mode stem -/

theorem sanitizeStemL_props (l : List Char) :
    (∀ c ∈ sanitizeStemL l, goodStemChar c = true)
    ∧ NoDoubleUS (sanitizeStemL l)
    ∧ (sanitizeStemL l).head? ≠ some '_'
    ∧ (∀ c, (sanitizeStemL l).getLast? = some c → c ≠ '_') := by
  unfold sanitizeStemL stripWhile
  set inner := mapInvalidL (stripPdfSuffixL ((unquoteL (lastSegmentL l)).map pyLower))
    with hinner
  refine ⟨?_, ?_, ?_, ?_⟩
  · intro c hc
    have h1 := mem_dropTrailingWhile _ _ c hc
    have h2 := (List.dropWhile_sublist (l := collapseUnderscoresL inner)
      (fun c => decide (c = '_'))).subset h1
    exact mem_mapInvalidL (mem_collapseUnderscoresL h2)
  · exact noDouble_dropTrailingWhile _ _
      (noDouble_dropWhile _ _ (collapseUnderscoresL_noDouble inner))
  · intro heq
    rcases head?_dropTrailingWhile (fun c => decide (c = '_'))
        ((collapseUnderscoresL inner).dropWhile (fun c => decide (c = '_'))) with
      h0 | h0
    · rw [h0] at heq; simp at heq
    · rw [h0] at heq
      have := head?_dropWhile_not (fun c => decide (c = '_')) _ _ heq
      simp at this
  · intro c hc
    have := getLast?_dropTrailingWhile (fun c => decide (c = '_')) _ c hc
    simpa using this

theorem sanitizeStemL_fixed {stem : List Char}
    (hchar : ∀ c ∈ stem, goodStemChar c = true) (hnd : NoDoubleUS stem)
    (hhead : stem.head? ≠ some '_')
    (hlast : ∀ c, stem.getLast? = some c → c ≠ '_') :
    sanitizeStemL (stem ++ (".pdf".data)) = stem := by
  have hpdf : (".pdf".data) = ['.', 'p', 'd', 'f'] := rfl
  have haux : ∀ c ∈ stem ++ (".pdf".data), c ≠ '/' ∧ c ≠ '%' ∧ pyLower c = c := by
    intro c hc
    rcases List.mem_append.1 hc with hm | hm
    · exact goodStemChar_facts (hchar c hm)
    · rw [hpdf] at hm
      simp only [List.mem_cons, List.not_mem_nil, or_false] at hm
      rcases hm with h | h | h | h <;> subst h <;> exact ⟨by decide, by decide, rfl⟩
  have h1 : lastSegmentL (stem ++ (".pdf".data)) = stem ++ (".pdf".data) :=
    lastSegmentL_id (fun c hc => (haux c hc).1)
  have h2 : unquoteL (stem ++ (".pdf".data)) = stem ++ (".pdf".data) :=
    unquoteL_id _ (fun hmem => (haux '%' hmem).2.1 rfl)
  have h3 : (stem ++ (".pdf".data)).map pyLower = stem ++ (".pdf".data) :=
    map_pyLower_id (fun c hc => (haux c hc).2.2)
  have h5 : mapInvalidL stem = stem := mapInvalidL_id hchar
  have h6 : collapseUnderscoresL stem = stem := collapseUnderscoresL_id stem hnd
  have h7 : stem.dropWhile (fun c => decide (c = '_')) = stem := by
    refine dropWhile_id_of_head _ stem ?_
    intro c hc
    by_cases he : c = '_'
    · subst he; exact absurd hc hhead
    · simp [he]
  have h8 : dropTrailingWhile (fun c => decide (c = '_')) stem = stem := by
    refine dropTrailingWhile_id _ stem ?_
    intro c hc
    have := hlast c hc
    simp [this]
  unfold sanitizeStemL stripWhile
  rw [h1, h2, h3, stripPdfSuffixL_append, h5, h6, h7, h8]

/-! ## Claim C3 -/

/-- C3: sanitize_primary_mode_filename is total (it is a function on all
strings by construction), idempotent, and always returns its sanitized
stem followed by ".pdf", where the stem contains only lowercase
alphanumerics and underscores and neither starts nor ends with an
underscore; hence the whole output stays inside lowercase alphanumerics,
underscore and dot. -/
theorem sanitize_primary_total_idempotent :
  ∀ s : String,
    sanitize_primary_mode_filename (sanitize_primary_mode_filename s)
      = sanitize_primary_mode_filename s
    ∧ (sanitize_primary_mode_filename s).data
        = sanitizeStemL s.data ++ (".pdf".data)
    ∧ (∀ c ∈ sanitizeStemL s.data, goodStemChar c = true)
    ∧ (sanitizeStemL s.data).head? ≠ some '_'
    ∧ (∀ c, (sanitizeStemL s.data).getLast? = some c → c ≠ '_')
    ∧ (∀ c ∈ (sanitize_primary_mode_filename s).data,
        goodStemChar c = true ∨ c = '.') := by
  intro s
  obtain ⟨hchar, hnd, hhead, hlast⟩ := sanitizeStemL_props s.data
  refine ⟨?_, rfl, hchar, hhead, hlast, ?_⟩
  · show String.mk (sanitizeStemL (String.mk (sanitizeStemL s.data ++ (".pdf".data))).data
        ++ (".pdf".data)) = _
    rw [show (String.mk (sanitizeStemL s.data ++ (".pdf".data))).data
        = sanitizeStemL s.data ++ (".pdf".data) from rfl]
    rw [sanitizeStemL_fixed hchar hnd hhead hlast]
    rfl
  · intro c hc
    rcases List.mem_append.1 hc with hm | hm
    · exact Or.inl (hchar c hm)
    · rw [show (".pdf".data) = ['.', 'p', 'd', 'f'] from rfl] at hm
      simp only [List.mem_cons, List.not_mem_nil, or_false] at hm
      rcases hm with h | h | h | h <;> subst h
      · exact Or.inr rfl
      · exact Or.inl (by decide)
      · exact Or.inl (by decide)
      · exact Or.inl (by decide)

/-- C3 witness: the sanitizer properties evaluated on a concrete URL with
percent-encoding, mixed case and an uppercase extension. -/
theorem sanitize_primary_total_idempotent_witness :
  sanitize_primary_mode_filename
      (sanitize_primary_mode_filename ("https://x.com/Some%20File.PDF"))
    = sanitize_primary_mode_filename ("https://x.com/Some%20File.PDF")
  ∧ goodStemChar 's' = true
  ∧ ('e' ≠ '_') :=
  ⟨(sanitize_primary_total_idempotent ("https://x.com/Some%20File.PDF")).1,
   (sanitize_primary_total_idempotent ("https://x.com/Some%20File.PDF")).2.2.1
     's' (by decide),
   (sanitize_primary_total_idempotent ("https://x.com/Some%20File.PDF")).2.2.2.2.1
     'e' (by decide)⟩

/-! ## Helper lemmas: KGIS sanitizer -/

theorem removeNoise_short (p1 p2 p3 p4 : Char) (l : List Char)
    (hl : ∀ (a b c d : Char) (t : List Char), l = a :: b :: c :: d :: t → False) :
    removeNoise p1 p2 p3 p4 l = l := by
  rw [removeNoise.eq_def]
  split
  · rename_i a b c d t
    exact absurd rfl (hl a b c d t)
  · rfl

theorem mem_removeNoise (p1 p2 p3 p4 : Char) :
    ∀ (l : List Char) (x : Char), x ∈ removeNoise p1 p2 p3 p4 l → x ∈ l := by
  intro l
  induction l using removeNoise.induct p1 p2 p3 p4 with
  | case1 a b c d t hcond ih =>
    intro x hx
    rw [removeNoise, if_pos hcond] at hx
    have := ih x hx
    simp only [List.mem_cons]
    exact Or.inr (Or.inr (Or.inr (Or.inr this)))
  | case2 a b c d t hcond ih =>
    intro x hx
    rw [removeNoise, if_neg hcond] at hx
    rcases List.mem_cons.1 hx with h2 | h2
    · exact h2 ▸ List.mem_cons_self _ _
    · exact List.mem_cons_of_mem a (ih x h2)
  | case3 l hl =>
    intro x hx
    rwa [removeNoise_short p1 p2 p3 p4 l hl] at hx

theorem count_removeNoise (p1 p2 p3 p4 a : Char)
    (h1 : (p1 == a) = false) (h2 : (p2 == a) = false)
    (h3 : (p3 == a) = false) (h4 : (p4 == a) = false) :
    ∀ l : List Char, (removeNoise p1 p2 p3 p4 l).count a = l.count a := by
  intro l
  induction l using removeNoise.induct p1 p2 p3 p4 with
  | case1 b1 b2 b3 b4 t hcond ih =>
    rw [removeNoise, if_pos hcond]
    simp only [Bool.and_eq_true, decide_eq_true_eq] at hcond
    obtain ⟨⟨⟨e1, e2⟩, e3⟩, e4⟩ := hcond
    subst e1; subst e2; subst e3; subst e4
    simp [List.count_cons, h1, h2, h3, h4, ih]
  | case2 b1 b2 b3 b4 t hcond ih =>
    rw [removeNoise, if_neg hcond]
    simp [List.count_cons, ih]
  | case3 l hl =>
    rw [removeNoise_short p1 p2 p3 p4 l hl]

theorem count_dropWhile (p : Char → Bool) (a : Char) (hpa : p a = false) :
    ∀ l : List Char, (l.dropWhile p).count a = l.count a := by
  intro l
  induction l with
  | nil => rfl
  | cons c t ih =>
    by_cases hc : p c = true
    · rw [List.dropWhile_cons, if_pos hc, ih, List.count_cons]
      have hca : (c == a) = false := by
        by_cases he : c = a
        · subst he; rw [hc] at hpa; exact absurd hpa (by simp)
        · simpa using he
      simp [hca]
    · rw [List.dropWhile_cons, if_neg hc]

theorem count_dropTrailingWhile (p : Char → Bool) (a : Char)
    (hpa : p a = false) :
    ∀ l : List Char, (dropTrailingWhile p l).count a = l.count a := by
  intro l
  induction l with
  | nil => rfl
  | cons c t ih =>
    rw [dropTrailingWhile]
    cases hr : dropTrailingWhile p t with
    | nil =>
      rw [hr] at ih
      have ht0 : t.count a = 0 := by
        rw [← ih]; rfl
      by_cases hc : p c = true
      · rw [if_pos hc]
        have hca : (c == a) = false := by
          by_cases he : c = a
          · subst he; rw [hc] at hpa; exact absurd hpa (by simp)
          · simpa using he
        simp [List.count_cons, hca, ht0]
      · rw [if_neg hc]
        simp [List.count_cons, ht0]
    | cons y ys =>
      rw [hr] at ih
      simp [List.count_cons, ih]

theorem count_collapseUnderscoresL (a : Char) (ha : (('_' : Char) == a) = false) :
    ∀ l : List Char, (collapseUnderscoresL l).count a = l.count a := by
  intro l
  induction l using collapseUnderscoresL.induct with
  | case1 => rfl
  | case2 d => rfl
  | case3 b c t hbc ih =>
    rw [collapseUnderscoresL, if_pos hbc, ih]
    simp only [Bool.and_eq_true, decide_eq_true_eq] at hbc
    rw [hbc.1]
    simp [List.count_cons, ha]
  | case4 b c t hbc ih =>
    rw [collapseUnderscoresL, if_neg hbc]
    simp [List.count_cons, ih]

theorem count_map_kgis (a : Char) (hka : isKgisKeep a = true) :
    ∀ l : List Char,
      ((l.map (fun c => if isKgisKeep c then c else '_')).count a) = l.count a := by
  intro l
  induction l with
  | nil => rfl
  | cons c t ih =>
    simp only [List.map_cons, List.count_cons, ih]
    by_cases hk : isKgisKeep c = true
    · rw [if_pos hk]
    · rw [if_neg hk]
      have h1 : (('_' : Char) == a) = false := by
        by_cases he : ('_' : Char) = a
        · rw [← he] at hka; exact absurd hka (by decide)
        · simpa using he
      have h2 : (c == a) = false := by
        by_cases he : c = a
        · subst he; exact absurd hka hk
        · simpa using he
      rw [h1, h2]

theorem kgisSafeName_chars (raw : List Char) :
    ∀ c ∈ kgisSafeName raw, isKgisKeep c = true ∨ c = '_' := by
  intro c hc
  unfold kgisSafeName stripWhile at hc
  have h1 := mem_removeNoise '_' 't' 'x' 't' _ c hc
  have h2 := mem_removeNoise '_' 'z' 'i' 'p' _ c h1
  have h3 := mem_removeNoise '_' 'p' 'd' 'f' _ c h2
  have h4 := mem_dropTrailingWhile _ _ c h3
  have h5 := (List.dropWhile_sublist (fun c => decide (c = '_'))).subset h4
  have h6 := mem_collapseUnderscoresL h5
  obtain ⟨x, _, hx⟩ := List.mem_map.1 h6
  by_cases hk : isKgisKeep x = true
  · rw [if_pos hk] at hx; subst hx; exact Or.inl hk
  · rw [if_neg hk] at hx; subst hx; exact Or.inr rfl

theorem kgisSafeName_count_dot (raw : List Char) :
    (kgisSafeName raw).count '.' = (kgisFilenamePart raw).count '.' := by
  unfold kgisSafeName stripWhile
  rw [count_removeNoise _ _ _ _ '.' (by decide) (by decide) (by decide) (by decide),
    count_removeNoise _ _ _ _ '.' (by decide) (by decide) (by decide) (by decide),
    count_removeNoise _ _ _ _ '.' (by decide) (by decide) (by decide) (by decide),
    count_dropTrailingWhile _ '.' (by decide),
    count_dropWhile _ '.' (by decide),
    count_collapseUnderscoresL '.' (by decide),
    count_map_kgis '.' (by decide)]

/-! ## Claim C7 -/

/-- C7 counterexample: for the well-formed URL of the KGIS base site with
a trailing slash, the basename is empty and the sanitizer returns the
empty string — not a non-empty name ending in an extension; the
downloader.py twin url_to_filename agrees. -/
theorem kgis_filename_empty_counterexample :
  is_url_format_valid ("https://kiatechinfo.snapon.com/") = true
  ∧ create_kgis_safe_filename ("https://kiatechinfo.snapon.com/") = ""
  ∧ url_to_filename ("https://kiatechinfo.snapon.com/") = "" :=
  ⟨rfl, rfl, rfl⟩

/-- C7 amended: the KGIS sanitizer lowercases the URL, drops the query,
takes the basename, replaces each character outside lowercase
alphanumerics and dot by an underscore, collapses repeated underscores,
strips surrounding underscores, and removes EVERY occurrence of _pdf,
_zip and _txt (not only as suffixes — witnessed by x_pdfy.pdf becoming
xy.pdf); dots are preserved through sanitization, and the original
extension is re-appended exactly when the sanitized name has none.  The
output can be empty or extension-less (see the counterexample), and
url_to_filename is the same function. -/
theorem kgis_filename_pipeline :
  ∀ u : String,
    (∀ c ∈ kgisSafeName u.data, isKgisKeep c = true ∨ c = '_')
    ∧ (kgisSafeName u.data).count '.' = (kgisFilenamePart u.data).count '.'
    ∧ create_kgis_safe_filename u
        = (if splitextExtL (kgisSafeName u.data) = []
            then String.mk (kgisSafeName u.data
              ++ splitextExtL (kgisFilenamePart u.data))
            else String.mk (kgisSafeName u.data))
    ∧ create_kgis_safe_filename ("https://a/x_pdfy.pdf") = ("xy.pdf")
    ∧ url_to_filename u = create_kgis_safe_filename u := by
  intro u
  exact ⟨kgisSafeName_chars u.data, kgisSafeName_count_dot u.data, rfl, rfl, rfl⟩

/-- C7 witness: the character-class guarantee discharged at a concrete
member of a concrete sanitized name, together with the interior noise
removal. -/
theorem kgis_filename_pipeline_witness :
  (isKgisKeep 'x' = true ∨ 'x' = '_')
  ∧ create_kgis_safe_filename ("https://a/x_pdfy.pdf") = ("xy.pdf") :=
  ⟨(kgis_filename_pipeline ("https://a/x_pdfy.pdf")).1 'x' (by decide),
   (kgis_filename_pipeline ("https://a/x_pdfy.pdf")).2.2.2.1⟩

end KiaSpec
